import Mathlib

/-!
Verification of HeloWrite's configuration persistence (`src/config.py`) and
git synchronization workflows (`src/app.py`).

Strings are modelled as lists of characters (`Str`), Python dicts as
association lists with Python's insertion-order update semantics, and the
config file as an optional string together with read/write failure flags
(an I/O failure in `read_text` / `write_text` raises in Python; both sites
swallow the exception).

Known modelling simplifications, none of which affects any claim below:
Python `str.strip` also strips `\x1c`-`\x1f` and Unicode whitespace (we
cover the ASCII whitespace characters); Python `int()` additionally accepts
underscore digit separators and Unicode digits (we accept an optional sign
followed by ASCII digits, surrounded by whitespace).
-/

namespace HW

abbrev Str := List Char

/-- Coerce a Lean string literal to the `Str` model. -/
def str (s : String) : Str := s.data

/-- Python `str.strip`'s default whitespace set (ASCII part). -/
def isPyWs (c : Char) : Bool :=
  c = ' ' || c = '\t' || c = '\n' || c = '\r' || c = '\x0b' || c = '\x0c'

/-- Python `str.strip()`: drop leading and trailing whitespace. -/
def pyStrip (l : Str) : Str :=
  ((l.dropWhile isPyWs).reverse.dropWhile isPyWs).reverse

/-- Python `s.split(sep)` for a one-character separator: `"".split(sep) = [""]`. -/
def splitOnChar (c : Char) : Str → List Str
  | [] => [[]]
  | a :: as =>
    if a = c then [] :: splitOnChar c as
    else
      match splitOnChar c as with
      | [] => [[a]]
      | p :: ps => (a :: p) :: ps

/-- Python `sep.join(parts)` for a one-character separator. -/
def joinSep (c : Char) : List Str → Str
  | [] => []
  | [x] => x
  | x :: y :: ys => x ++ c :: joinSep c (y :: ys)

/-- Does `needle` occur at the start of `hay`? -/
def headMatch : Str → Str → Bool
  | [], _ => true
  | _ :: _, [] => false
  | a :: as, b :: bs => a == b && headMatch as bs

/-- Python `needle in hay` for strings: substring test. -/
def pyIn (needle : Str) : Str → Bool
  | [] => headMatch needle []
  | b :: hs => headMatch needle (b :: hs) || pyIn needle hs

/-- Decimal digit character for a value below ten. -/
def digitChar : Nat → Char
  | 0 => '0'
  | 1 => '1'
  | 2 => '2'
  | 3 => '3'
  | 4 => '4'
  | 5 => '5'
  | 6 => '6'
  | 7 => '7'
  | 8 => '8'
  | _ => '9'

/-- Decimal rendering of a natural number, as Python `str` produces it. -/
def natStr (n : Nat) : Str :=
  if _h : n < 10 then [digitChar n]
  else natStr (n / 10) ++ [digitChar (n % 10)]
termination_by n
decreasing_by exact Nat.div_lt_self (by omega) (by omega)

/-- Python `str(i)` for an integer. -/
def intStr (i : Int) : Str :=
  if i < 0 then '-' :: natStr i.natAbs else natStr i.toNat

/-- Value of a string of decimal digits. -/
def decDigits (l : Str) : Nat :=
  l.foldl (fun a c => 10 * a + (c.toNat - 48)) 0

/-- Decimal digits to a value, `none` unless the string is nonempty and all digits. -/
def decDigitsOpt (l : Str) : Option Nat :=
  if l ≠ [] ∧ l.all Char.isDigit then some (decDigits l) else none

/-- Sign handling of Python `int()` (after stripping). -/
def pyIntCore : Str → Option Int
  | [] => none
  | c :: cs =>
    if c = '-' then (decDigitsOpt cs).map (fun n => -(n : Int))
    else if c = '+' then (decDigitsOpt cs).map (fun n => (n : Int))
    else (decDigitsOpt (c :: cs)).map (fun n => (n : Int))

/-- Python `int(s)` on a string: `some` the value, `none` models `ValueError`. -/
def pyInt (l : Str) : Option Int := pyIntCore (pyStrip l)

/-! Python dict with string keys and values, as an association list in
insertion order: assignment to a present key updates it in place,
assignment to an absent key appends. -/

abbrev Dict := List (Str × Str)

/-- Python `d[k] = v`. -/
def dictSet : Dict → Str → Str → Dict
  | [], k, v => [(k, v)]
  | (a, b) :: rest, k, v =>
    if a = k then (k, v) :: rest else (a, b) :: dictSet rest k v

/-- Python `d.get(k)` without a default. -/
def dictGet : Dict → Str → Option Str
  | [], _ => none
  | (a, b) :: rest, k => if a = k then some b else dictGet rest k

/-- Python `d.get(k, dflt)`. -/
def dictGetD (d : Dict) (k dflt : Str) : Str := (dictGet d k).getD dflt

/-! The config file model: `Config._load_config` and `Config._save_config`
from `src/config.py`. -/

/-- One line of `_load_config`'s loop: if the line contains `=`, split once
at the first `=`, strip both sides and assign. -/
def parseLine (cfg : Dict) (line : Str) : Dict :=
  if line.contains '=' then
    dictSet cfg (pyStrip (line.takeWhile (fun c => c != '=')))
      (pyStrip ((line.dropWhile (fun c => c != '=')).drop 1))
  else cfg

/-- Full `_load_config` body on successfully read file content:
`content.strip().split("\n")`, then the key-value loop. -/
def parseConfig (content : Str) : Dict :=
  (splitOnChar '\n' (pyStrip content)).foldl parseLine []

/-- Serialization in `_save_config`: `"\n".join(f"{key}={value}" ...)`. -/
def saveConfig (d : Dict) : Str :=
  joinSep '\n' (d.map (fun p => p.1 ++ '=' :: p.2))

/-- The config file's state: its content if it exists, plus flags for an
I/O failure on the next read or write (a raising `read_text`/`write_text`). -/
structure FileSys where
  content : Option Str
  readFails : Bool
  writeFails : Bool

/-- Config._load_config: missing file or raising read yields the empty dict. -/
def loadConfig (fs : FileSys) : Dict :=
  match fs.content with
  | some c => if fs.readFails then [] else parseConfig c
  | none => []

/-- Config._save_config: a raising write is swallowed, leaving the file as is. -/
def writeFile (fs : FileSys) (d : Dict) : FileSys :=
  if fs.writeFails then fs else { fs with content := some (saveConfig d) }

/-! Getters and setters of `Config`, in source order. Every getter reloads
the file, every setter reloads, mutates one key and rewrites the whole
mapping. The four `int(...)`-converting getters return `Option Int`:
`none` models the uncaught `ValueError` Python raises on a stored string
that is not an integer. -/

def get_theme (fs : FileSys) : Str :=
  dictGetD (loadConfig fs) (str "theme") (str "helowrite-dark")

def set_theme (fs : FileSys) (theme : Str) : FileSys :=
  writeFile fs (dictSet (loadConfig fs) (str "theme") theme)

def get_editor_width (fs : FileSys) : Option Int :=
  match dictGet (loadConfig fs) (str "editor_width") with
  | some s => pyInt s
  | none => some 70

def set_editor_width (fs : FileSys) (width : Int) : FileSys :=
  writeFile fs (dictSet (loadConfig fs) (str "editor_width") (intStr width))

def get_bottom_padding (fs : FileSys) : Option Int :=
  match dictGet (loadConfig fs) (str "bottom_padding") with
  | some s => pyInt s
  | none => some 0

def set_bottom_padding (fs : FileSys) (padding : Int) : FileSys :=
  writeFile fs (dictSet (loadConfig fs) (str "bottom_padding") (intStr padding))

def get_distraction_top_padding (fs : FileSys) : Option Int :=
  match dictGet (loadConfig fs) (str "distraction_top_padding") with
  | some s => pyInt s
  | none => some 2

def set_distraction_top_padding (fs : FileSys) (padding : Int) : FileSys :=
  writeFile fs (dictSet (loadConfig fs) (str "distraction_top_padding") (intStr padding))

def get_distraction_free (fs : FileSys) : Bool :=
  dictGetD (loadConfig fs) (str "distraction_free") (str "0") == str "1"

def set_distraction_free (fs : FileSys) (enabled : Bool) : FileSys :=
  writeFile fs (dictSet (loadConfig fs) (str "distraction_free")
    (if enabled then str "1" else str "0"))

def get_show_word_count_distraction_free (fs : FileSys) : Bool :=
  dictGetD (loadConfig fs) (str "show_word_count_distraction_free") (str "1") == str "1"

def set_show_word_count_distraction_free (fs : FileSys) (enabled : Bool) : FileSys :=
  writeFile fs (dictSet (loadConfig fs) (str "show_word_count_distraction_free")
    (if enabled then str "1" else str "0"))

def get_cursor_color (fs : FileSys) : Str :=
  dictGetD (loadConfig fs) (str "cursor_color") (str "theme")

def set_cursor_color (fs : FileSys) (color : Str) : FileSys :=
  writeFile fs (dictSet (loadConfig fs) (str "cursor_color") color)

def get_open_last_file (fs : FileSys) : Bool :=
  dictGetD (loadConfig fs) (str "open_last_file") (str "0") == str "1"

def set_open_last_file (fs : FileSys) (enabled : Bool) : FileSys :=
  writeFile fs (dictSet (loadConfig fs) (str "open_last_file")
    (if enabled then str "1" else str "0"))

def get_last_file_path (fs : FileSys) : Str :=
  dictGetD (loadConfig fs) (str "last_file_path") []

def set_last_file_path (fs : FileSys) (path : Str) : FileSys :=
  writeFile fs (dictSet (loadConfig fs) (str "last_file_path") path)

def get_last_cursor_position (fs : FileSys) : Int × Int :=
  let posStr := dictGetD (loadConfig fs) (str "last_cursor_position") (str "0,0")
  match splitOnChar ',' posStr with
  | [a, b] =>
    match pyInt a, pyInt b with
    | some x, some y => (x, y)
    | _, _ => (0, 0)
  | _ => (0, 0)

def set_last_cursor_position (fs : FileSys) (p : Int × Int) : FileSys :=
  writeFile fs (dictSet (loadConfig fs) (str "last_cursor_position")
    (intStr p.1 ++ ',' :: intStr p.2))

def get_recent_files (fs : FileSys) : List Str :=
  let recent := dictGetD (loadConfig fs) (str "recent_files") []
  if recent != [] then (splitOnChar '|' recent).filter (fun f => f != []) else []

/-- Python `list.remove`: drop the first occurrence. -/
def removeFirst : List Str → Str → List Str
  | [], _ => []
  | x :: xs, v => if x = v then xs else x :: removeFirst xs v

def add_recent_file (fs : FileSys) (path : Str) : FileSys :=
  let config := loadConfig fs
  let recent0 := get_recent_files fs
  let recent1 := if path ∈ recent0 then removeFirst recent0 path else recent0
  let recent2 := (path :: recent1).take 5
  writeFile fs (dictSet config (str "recent_files") (joinSep '|' recent2))

def get_obsidian_vault_path (fs : FileSys) : Str :=
  dictGetD (loadConfig fs) (str "obsidian_vault_path") []

/-- Only setter that can raise: `ValueError` (the `.error` case) when the
path is nonempty and `isDirOK path` is false, where `isDirOK` models
`os.path.exists(path) and os.path.isdir(path)`. The check precedes the
load and the write. -/
def set_obsidian_vault_path (isDirOK : Str → Bool) (fs : FileSys) (path : Str) :
    Except Str FileSys :=
  if path != [] && !(isDirOK path) then
    .error (str "Vault path must be an existing directory")
  else
    .ok (writeFile fs (dictSet (loadConfig fs) (str "obsidian_vault_path") path))

def get_auto_save_enabled (fs : FileSys) : Bool :=
  dictGetD (loadConfig fs) (str "auto_save_enabled") (str "0") == str "1"

def set_auto_save_enabled (fs : FileSys) (enabled : Bool) : FileSys :=
  writeFile fs (dictSet (loadConfig fs) (str "auto_save_enabled")
    (if enabled then str "1" else str "0"))

def get_auto_save_interval (fs : FileSys) : Option Int :=
  match dictGet (loadConfig fs) (str "auto_save_interval") with
  | some s => pyInt s
  | none => some 5

def set_auto_save_interval (fs : FileSys) (interval : Int) : FileSys :=
  writeFile fs (dictSet (loadConfig fs) (str "auto_save_interval") (intStr interval))

def get_scrollbar_enabled (fs : FileSys) : Bool :=
  dictGetD (loadConfig fs) (str "scrollbar_enabled") (str "0") == str "1"

def set_scrollbar_enabled (fs : FileSys) (enabled : Bool) : FileSys :=
  writeFile fs (dictSet (loadConfig fs) (str "scrollbar_enabled")
    (if enabled then str "1" else str "0"))

/-! Git synchronization workflows, `_async_git_push` and `_async_git_pull`
from `src/app.py`. Each external command is a call to `subprocess.run`
with `check=True`: the result of the i-th call of an invocation is given
by an oracle `ex : Nat → ProcOut`, and a nonzero return code raises
`CalledProcessError` carrying the captured output. The observable behavior
of one invocation is its event trace: commands started, feedback shown to
the user, diagnostic log lines appended, and the editor reload. -/

structure ProcOut where
  retcode : Int
  stdout : Str
  stderr : Str

/-- True when `subprocess.run(..., check=True)` returns instead of raising. -/
def ProcOut.ok (r : ProcOut) : Bool := r.retcode == 0

inductive Event where
  | ran : List Str → Event
  | feedback : Str → Str → Event
  | logLine : Str → Event
  | reload : Event
deriving DecidableEq

def gitPushStashCmd : List Str :=
  [str "git", str "stash", str "push", str "-m", str "auto-stash before sync"]

def gitPullStashCmd : List Str :=
  [str "git", str "stash", str "push", str "-m", str "auto-stash before pull"]

def stashPopCmd : List Str := [str "git", str "stash", str "pop"]

def rebaseAbortCmd : List Str := [str "git", str "rebase", str "--abort"]

def mergeAbortCmd : List Str := [str "git", str "merge", str "--abort"]

def addCmd (fileName : Str) : List Str := [str "git", str "add", fileName]

def commitCmd (fileName : Str) : List Str :=
  [str "git", str "commit", str "-m", str "Update " ++ fileName]

def pushCmd : List Str := [str "git", str "push"]

def pullCmd : List Str := [str "git", str "pull"]

def branchShowCmd : List Str := [str "git", str "branch", str "--show-current"]

def remoteCmd : List Str := [str "git", str "remote"]

def setUpstreamCmd (branch : Str) : List Str :=
  [str "git", str "branch", str "--set-upstream-to", str "origin/" ++ branch, branch]

def noLocalChanges (r : ProcOut) : Bool :=
  pyIn (str "No local changes to save") r.stdout ||
    pyIn (str "No local changes to save") r.stderr

def noStashEntries (r : ProcOut) : Bool :=
  pyIn (str "No stash entries found") r.stderr

def nothingToCommit (r : ProcOut) : Bool :=
  pyIn (str "nothing to commit") r.stdout || pyIn (str "nothing to commit") r.stderr

def pushUpToDate (r : ProcOut) : Bool :=
  pyIn (str "Everything up-to-date") r.stdout ||
    pyIn (str "Everything up-to-date") r.stderr ||
      pyIn (str "up to date") r.stdout || pyIn (str "up to date") r.stderr

def pullUpToDate (r : ProcOut) : Bool :=
  pyIn (str "Already up to date") r.stdout ||
    pyIn (str "Already up to date") r.stderr ||
      pyIn (str "up to date") r.stdout || pyIn (str "up to date") r.stderr

def noTracking (r : ProcOut) : Bool :=
  pyIn (str "There is no tracking information") r.stderr

/-- The `error_details` expression of both outer exception handlers:
`e.stderr.strip() or e.stdout.strip() or f"Command failed with return code
{e.returncode}"`. -/
def errorDetails (r : ProcOut) : Str :=
  if pyStrip r.stderr != [] then pyStrip r.stderr
  else if pyStrip r.stdout != [] then pyStrip r.stdout
  else str "Command failed with return code " ++ intStr r.retcode

def pushConflictMsg : Str :=
  str "Git push aborted: conflicts detected when restoring stashed changes. Please resolve manually."

def pullConflictMsg : Str :=
  str "Git pull aborted: conflicts detected when restoring stashed changes. Please resolve manually."

/-- Push's outer `except subprocess.CalledProcessError` handler: classify,
log (unless "up to date"), show feedback. -/
def pushFailEvents (currentCmd : Str) (e : ProcOut) : List Event :=
  let details := errorDetails e
  if pyIn (str "up to date") details then
    [.feedback (str "Git push completed (already up to date)") (str "information")]
  else
    let msg :=
      if pyIn (str "Updates were rejected because the remote contains work") details then
        str "Git push failed: remote has changes you don't have. Try pulling first with Alt+H, then push again."
      else if pyIn (str "no upstream branch") details then
        str "Git push failed: no upstream branch set. Try pulling first with Alt+H to set it up."
      else
        str "Git push failed - check git_sync_errors.log for details. You may need to resolve conflicts manually."
    [.logLine (str "Command '" ++ currentCmd ++ str "' failed: " ++ details ++ str "\n"),
      .feedback msg (str "error")]

/-- Pull's outer `except subprocess.CalledProcessError` handler. -/
def pullFailEvents (currentCmd : Str) (e : ProcOut) : List Event :=
  let details := errorDetails e
  if pyIn (str "up to date") details then
    [.feedback (str "Git pull completed (already up to date)") (str "information")]
  else
    [.logLine (str "Command '" ++ currentCmd ++ str "' failed: " ++ details ++ str "\n"),
      .feedback (str "Git pull failed - check git_sync_errors.log for details. You may need to resolve conflicts manually.")
        (str "error")]

/-- The push workflow, `_async_git_push` lines 882-985 of `src/app.py`. -/
def gitPush (ex : Nat → ProcOut) (fileName : Str) : List Event :=
  let r0 := ex 0
  let e0 : List Event := [.ran gitPushStashCmd]
  if !r0.ok && !noLocalChanges r0 then
    e0 ++ pushFailEvents (str "git stash push") r0
  else
    let r1 := ex 1
    let e1 := e0 ++ [.ran stashPopCmd]
    if !r1.ok && !noStashEntries r1 then
      e1 ++ [.feedback pushConflictMsg (str "error"), .ran rebaseAbortCmd, .ran mergeAbortCmd]
    else
      let r2 := ex 2
      let e2 := e1 ++ [.ran (addCmd fileName)]
      if !r2.ok then
        e2 ++ pushFailEvents (str "git add") r2
      else
        let r3 := ex 3
        let e3 := e2 ++ [.ran (commitCmd fileName)]
        if !r3.ok && nothingToCommit r3 then
          e3 ++ [.feedback (str "No changes to commit") (str "information")]
        else if !r3.ok then
          e3 ++ pushFailEvents (str "git commit") r3
        else
          let r4 := ex 4
          let e4 := e3 ++ [.ran pushCmd]
          if !r4.ok && !pushUpToDate r4 then
            e4 ++ pushFailEvents (str "git push") r4
          else
            e4 ++ [.feedback (str "Git push completed for " ++ fileName) (str "information")]

/-- The stash-pop stage of pull and everything after it, starting at call
index `i` with the events so far in `evs`. -/
def pullPopPhase (ex : Nat → ProcOut) (i : Nat) (evs : List Event) (fileName : Str) :
    List Event :=
  let rp := ex i
  let e1 := evs ++ [.ran stashPopCmd]
  if !rp.ok && !noStashEntries rp then
    e1 ++ [.feedback pullConflictMsg (str "error"), .ran rebaseAbortCmd, .ran mergeAbortCmd]
  else
    e1 ++ [.reload, .feedback (str "Git pull completed for " ++ fileName) (str "information")]

/-- The pull workflow, `_async_git_pull` lines 1004-1114 of `src/app.py`.
In the upstream-recovery branch a bare `raise` re-raises the original pull
error when `origin` is absent, while a failure of the branch, remote,
set-upstream or retried pull command raises that command's own error; in
every case `current_cmd` is still "git pull". -/
def gitPull (ex : Nat → ProcOut) (fileName : Str) : List Event :=
  let r0 := ex 0
  let e0 : List Event := [.ran gitPullStashCmd]
  if !r0.ok && !noLocalChanges r0 then
    e0 ++ pullFailEvents (str "git stash push") r0
  else
    let r1 := ex 1
    let e1 := e0 ++ [.ran pullCmd]
    if r1.ok || pullUpToDate r1 then
      pullPopPhase ex 2 e1 fileName
    else if noTracking r1 then
      let r2 := ex 2
      let e2 := e1 ++ [.ran branchShowCmd]
      if !r2.ok then e2 ++ pullFailEvents (str "git pull") r2
      else
        let branch := pyStrip r2.stdout
        let r3 := ex 3
        let e3 := e2 ++ [.ran remoteCmd]
        if !r3.ok then e3 ++ pullFailEvents (str "git pull") r3
        else
          let remotes := splitOnChar '\n' (pyStrip r3.stdout)
          if (str "origin") ∈ remotes then
            let r4 := ex 4
            let e4 := e3 ++ [.ran (setUpstreamCmd branch)]
            if !r4.ok then e4 ++ pullFailEvents (str "git pull") r4
            else
              let r5 := ex 5
              let e5 := e4 ++ [.ran pullCmd]
              if !r5.ok then e5 ++ pullFailEvents (str "git pull") r5
              else pullPopPhase ex 6 e5 fileName
          else
            e3 ++ pullFailEvents (str "git pull") r1
    else
      e1 ++ pullFailEvents (str "git pull") r1

/-! Editor reload after a successful pull, `reload_file_content` lines
1116-1139 of `src/app.py`. `fileOpenAndExists` models
`self.file_path and self.file_path.exists()`; `onDisk` is the result of
`read_text` (`none` models a raising read, whose exception is caught
before any editor state was touched). -/

structure EditorSt where
  text : Str
  cursorLine : Int
  cursorCol : Int
  originalText : Str
  isDirty : Bool
deriving DecidableEq

def reload_file_content (fileOpenAndExists : Bool) (onDisk : Option Str)
    (st : EditorSt) : EditorSt :=
  if !fileOpenAndExists then st
  else
    match onDisk with
    | none => st
    | some content =>
      if content = st.originalText then st
      else
        let lines := splitOnChar '\n' content
        let validLine := max 0 (min st.cursorLine ((lines.length : Int) - 1))
        let validCol := max 0 (min st.cursorCol ((lines.getD validLine.toNat []).length : Int))
        { text := content, cursorLine := validLine, cursorCol := validCol,
          originalText := content, isDirty := false }

/-! Derived notions used by the specification statements. -/

/-- Python `str.rstrip()`: drop trailing whitespace only. -/
def trailStrip (l : Str) : Str := (l.reverse.dropWhile isPyWs).reverse

/-- The keys of a dict, in order. -/
def dictKeys (d : Dict) : List Str := d.map Prod.fst

/-- A key as `_load_config` produces it: stripped, single-line, `=`-free. -/
def cleanKey (k : Str) : Prop := pyStrip k = k ∧ '\n' ∉ k ∧ '=' ∉ k

/-- A dict whose serialization re-parses to itself up to value stripping:
clean keys without duplicates, values single-line. -/
def DictWF (d : Dict) : Prop :=
  (∀ p ∈ d, cleanKey p.1 ∧ '\n' ∉ p.2) ∧ (dictKeys d).Nodup

/-- All values are strip-invariant, as `_load_config` produces them. -/
def DictVS (d : Dict) : Prop := ∀ p ∈ d, pyStrip p.2 = p.2

instance (k : Str) : Decidable (cleanKey k) := by
  unfold cleanKey
  infer_instance

/-! Lemmas about `pyStrip`. -/

/-- A list that neither starts nor (reversed) ends in whitespace. -/
def edgeOK (l : Str) : Prop :=
  (∀ a as, l = a :: as → isPyWs a = false) ∧
    (∀ a as, l.reverse = a :: as → isPyWs a = false)

theorem dropWhile_head_false {p : Char → Bool} {l : Str} {a : Char} {as : Str}
    (h : l.dropWhile p = a :: as) : p a = false := by
  induction l with
  | nil => simp [List.dropWhile] at h
  | cons b bs ih =>
    rw [List.dropWhile_cons] at h
    by_cases hb : p b
    · rw [if_pos hb] at h
      exact ih h
    · rw [if_neg hb] at h
      cases h
      simpa using hb

theorem pyStrip_eq_self {l : Str} (h : edgeOK l) : pyStrip l = l := by
  obtain ⟨h1, h2⟩ := h
  unfold pyStrip
  have hd : l.dropWhile isPyWs = l := by
    cases hc : l with
    | nil => rfl
    | cons a as => rw [List.dropWhile_cons, h1 a as hc, if_neg (by simp)]
  rw [hd]
  have hr : l.reverse.dropWhile isPyWs = l.reverse := by
    cases hc : l.reverse with
    | nil => simp [hc]
    | cons a as => rw [List.dropWhile_cons, h2 a as hc, if_neg (by simp)]
  rw [hr, List.reverse_reverse]

theorem edgeOK_of_all {l : Str} (h : ∀ c ∈ l, isPyWs c = false) : edgeOK l := by
  constructor
  · intro a as he
    exact h a (he ▸ List.mem_cons_self a as)
  · intro a as he
    have ha : a ∈ l.reverse := he ▸ List.mem_cons_self a as
    exact h a (List.mem_reverse.mp ha)

theorem pyStrip_eq_self_of_all {l : Str} (h : ∀ c ∈ l, isPyWs c = false) :
    pyStrip l = l :=
  pyStrip_eq_self (edgeOK_of_all h)

theorem edgeOK_of_pyStrip {l : Str} (h : pyStrip l = l) : edgeOK l := by
  have hYlen : (pyStrip l).length = l.length := by rw [h]
  have hYlen2 : (pyStrip l).length =
      ((l.dropWhile isPyWs).reverse.dropWhile isPyWs).length := by
    unfold pyStrip
    rw [List.length_reverse]
  have hYsuf := (List.dropWhile_suffix
    (l := (l.dropWhile isPyWs).reverse) isPyWs).length_le
  rw [List.length_reverse] at hYsuf
  have hX : l.dropWhile isPyWs = l :=
    (List.dropWhile_suffix _).eq_of_length_le (by omega)
  have hY : l.reverse.dropWhile isPyWs = l.reverse := by
    apply (List.dropWhile_suffix _).eq_of_length_le
    have hYlen3 : (pyStrip l).length = (l.reverse.dropWhile isPyWs).length := by
      unfold pyStrip
      rw [hX, List.length_reverse]
    rw [List.length_reverse]
    omega
  constructor
  · intro a as he
    exact dropWhile_head_false (he ▸ hX)
  · intro a as he
    exact dropWhile_head_false (he ▸ hY)

theorem pyStrip_prefix_dropWhile (l : Str) : pyStrip l <+: l.dropWhile isPyWs := by
  have h : ((l.dropWhile isPyWs).reverse.dropWhile isPyWs).reverse <+:
      (l.dropWhile isPyWs).reverse.reverse :=
    List.reverse_prefix.mpr (List.dropWhile_suffix _)
  rw [List.reverse_reverse] at h
  exact h

theorem edgeOK_pyStrip (l : Str) : edgeOK (pyStrip l) := by
  constructor
  · intro a as he
    have hp := pyStrip_prefix_dropWhile l
    rw [he] at hp
    obtain ⟨t, ht⟩ := hp
    rw [List.cons_append] at ht
    exact dropWhile_head_false ht.symm
  · intro a as he
    have e : (pyStrip l).reverse = (l.dropWhile isPyWs).reverse.dropWhile isPyWs := by
      unfold pyStrip
      rw [List.reverse_reverse]
    rw [he] at e
    exact dropWhile_head_false e.symm

theorem pyStrip_idem (l : Str) : pyStrip (pyStrip l) = pyStrip l :=
  pyStrip_eq_self (edgeOK_pyStrip l)

theorem pyStrip_sublist (l : Str) : List.Sublist (pyStrip l) l :=
  ((pyStrip_prefix_dropWhile l).sublist).trans (List.dropWhile_suffix _).sublist

theorem mem_pyStrip {c : Char} {l : Str} (h : c ∈ pyStrip l) : c ∈ l :=
  (pyStrip_sublist l).subset h

/-! Lemmas about `trailStrip` and its interaction with `pyStrip`. -/

theorem trailStrip_sublist (l : Str) : List.Sublist (trailStrip l) l := by
  unfold trailStrip
  have h : (l.reverse.dropWhile isPyWs).reverse <+: l.reverse.reverse :=
    List.reverse_prefix.mpr (List.dropWhile_suffix _)
  rw [List.reverse_reverse] at h
  exact h.sublist

theorem trailStrip_eq_nil_iff {l : Str} :
    trailStrip l = [] ↔ ∀ c ∈ l, isPyWs c = true := by
  unfold trailStrip
  rw [List.reverse_eq_nil_iff, List.dropWhile_eq_nil_iff]
  constructor
  · intro h c hc
    exact h c (List.mem_reverse.mpr hc)
  · intro h c hc
    exact h c (List.mem_reverse.mp hc)

theorem trailStrip_append_ne {x y : Str} (hy : trailStrip y ≠ []) :
    trailStrip (x ++ y) = x ++ trailStrip y := by
  unfold trailStrip at *
  rw [List.reverse_append, List.dropWhile_append]
  have hne : (y.reverse.dropWhile isPyWs).isEmpty = false := by
    rw [List.isEmpty_eq_false]
    intro h
    exact hy (by rw [h]; rfl)
  rw [hne]
  simp

theorem trailStrip_cons_nonws {c : Char} {v : Str} (hc : isPyWs c = false) :
    trailStrip (c :: v) = c :: trailStrip v := by
  by_cases hv : trailStrip v = []
  · rw [hv]
    unfold trailStrip
    rw [List.reverse_cons, List.dropWhile_append]
    have hall : v.reverse.dropWhile isPyWs = [] := by
      have := trailStrip_eq_nil_iff.mp hv
      rw [List.dropWhile_eq_nil_iff]
      intro x hx
      exact this x (List.mem_reverse.mp hx)
    rw [hall]
    simp [List.dropWhile_cons, hc]
  · have h1 : trailStrip ([c] ++ v) = [c] ++ trailStrip v := trailStrip_append_ne hv
    simpa using h1

theorem trailStrip_sep {k v : Str} {c : Char} (hc : isPyWs c = false) :
    trailStrip (k ++ c :: v) = k ++ c :: trailStrip v := by
  have h1 : trailStrip (c :: v) = c :: trailStrip v := trailStrip_cons_nonws hc
  have h2 : trailStrip (c :: v) ≠ [] := by
    rw [h1]
    simp
  rw [trailStrip_append_ne h2, h1]

theorem dropWhile_self_idem (p : Char → Bool) (l : Str) :
    (l.dropWhile p).dropWhile p = l.dropWhile p := by
  cases hc : l.dropWhile p with
  | nil => rfl
  | cons a as => rw [List.dropWhile_cons, dropWhile_head_false hc, if_neg (by simp)]

theorem trailStrip_idem (l : Str) : trailStrip (trailStrip l) = trailStrip l := by
  unfold trailStrip
  rw [List.reverse_reverse, dropWhile_self_idem]

theorem trailStrip_dropWhile_comm (l : Str) :
    (trailStrip l).dropWhile isPyWs = trailStrip (l.dropWhile isPyWs) := by
  induction l with
  | nil => rfl
  | cons a as ih =>
    by_cases ha : isPyWs a = true
    · by_cases hv : trailStrip as = []
      · have hall : ∀ c ∈ (a :: as), isPyWs c = true := by
          intro c hc
          rcases List.mem_cons.mp hc with rfl | hc
          · exact ha
          · exact trailStrip_eq_nil_iff.mp hv c hc
        rw [trailStrip_eq_nil_iff.mpr hall]
        rw [List.dropWhile_cons, if_pos ha]
        have : as.dropWhile isPyWs = [] := by
          rw [List.dropWhile_eq_nil_iff]
          intro x hx
          exact trailStrip_eq_nil_iff.mp hv x hx
        rw [this]
        rfl
      · have h1 : trailStrip (a :: as) = a :: trailStrip as := by
          simpa using @trailStrip_append_ne [a] as hv
        rw [h1, List.dropWhile_cons, if_pos ha, List.dropWhile_cons, if_pos ha]
        exact ih
    · have haf : isPyWs a = false := by simpa using ha
      have h1 : trailStrip (a :: as) = a :: trailStrip as := trailStrip_cons_nonws haf
      rw [h1, List.dropWhile_cons, if_neg (by simp [haf]), List.dropWhile_cons,
        if_neg (by simp [haf]), h1]

theorem pyStrip_eq_trail (l : Str) : pyStrip l = trailStrip (l.dropWhile isPyWs) := rfl

theorem pyStrip_trailStrip (l : Str) : pyStrip (trailStrip l) = pyStrip l := by
  rw [pyStrip_eq_trail, pyStrip_eq_trail, trailStrip_dropWhile_comm, trailStrip_idem]

/-! Lemmas about decimal rendering and `pyInt`. -/

theorem digitChar_toNat {d : Nat} (h : d < 10) : (digitChar d).toNat = 48 + d := by
  interval_cases d <;> rfl

theorem digitChar_isDigit {d : Nat} (h : d < 10) : (digitChar d).isDigit = true := by
  interval_cases d <;> rfl

theorem natStr_ne_nil (n : Nat) : natStr n ≠ [] := by
  unfold natStr
  split <;> simp

theorem natStr_digits (n : Nat) : ∀ c ∈ natStr n, c.isDigit = true := by
  induction n using Nat.strong_induction_on with
  | _ n ih =>
    unfold natStr
    split
    case isTrue h =>
      intro c hc
      rw [List.mem_singleton] at hc
      exact hc ▸ digitChar_isDigit h
    case isFalse h =>
      intro c hc
      rcases List.mem_append.mp hc with hc | hc
      · exact ih (n / 10) (Nat.div_lt_self (by omega) (by omega)) c hc
      · rw [List.mem_singleton] at hc
        exact hc ▸ digitChar_isDigit (Nat.mod_lt _ (by omega))

theorem natStr_foldl (n : Nat) : ∀ a : Nat,
    (natStr n).foldl (fun x c => 10 * x + (c.toNat - 48)) a =
      a * 10 ^ (natStr n).length + n := by
  induction n using Nat.strong_induction_on with
  | _ n ih =>
    intro a
    by_cases h : n < 10
    · rw [natStr, dif_pos h]
      simp [List.foldl, digitChar_toNat h]
      omega
    · rw [natStr, dif_neg h]
      rw [List.foldl_append, ih (n / 10) (Nat.div_lt_self (by omega) (by omega)) a]
      have hd : (digitChar (n % 10)).toNat = 48 + n % 10 :=
        digitChar_toNat (Nat.mod_lt n (by omega))
      simp only [List.foldl_cons, List.foldl_nil, List.length_append,
        List.length_singleton, hd]
      rw [pow_succ, ← mul_assoc]
      have hdm : 10 * (n / 10) + n % 10 = n := Nat.div_add_mod n 10
      omega

theorem decDigits_natStr (n : Nat) : decDigits (natStr n) = n := by
  unfold decDigits
  rw [natStr_foldl n 0]
  simp

theorem decDigitsOpt_natStr (n : Nat) : decDigitsOpt (natStr n) = some n := by
  unfold decDigitsOpt
  rw [if_pos ⟨natStr_ne_nil n, List.all_eq_true.mpr (natStr_digits n)⟩,
    decDigits_natStr]

theorem isDigit_not_ws {c : Char} (h : c.isDigit = true) : isPyWs c = false := by
  have h1 : 48 ≤ c.toNat ∧ c.toNat ≤ 57 := by
    simp only [Char.isDigit, Bool.and_eq_true, decide_eq_true_eq] at h
    exact ⟨h.1, h.2⟩
  unfold isPyWs
  simp only [Bool.or_eq_false_iff, decide_eq_false_iff_not]
  refine ⟨⟨⟨⟨⟨?_, ?_⟩, ?_⟩, ?_⟩, ?_⟩, ?_⟩ <;> rintro rfl <;> simp_all

theorem isDigit_ne {c d : Char} (h : c.isDigit = true) (hd : d.isDigit = false) :
    c ≠ d := by
  intro e
  rw [e, hd] at h
  cases h

theorem natStr_not_ws (n : Nat) : ∀ c ∈ natStr n, isPyWs c = false :=
  fun c hc => isDigit_not_ws (natStr_digits n c hc)

theorem natStr_notMem {n : Nat} {d : Char} (hd : d.isDigit = false) : d ∉ natStr n := by
  intro hmem
  exact isDigit_ne (natStr_digits n d hmem) hd rfl

theorem intStr_not_ws (i : Int) : ∀ c ∈ intStr i, isPyWs c = false := by
  intro c hc
  unfold intStr at hc
  split at hc
  · rcases List.mem_cons.mp hc with rfl | hc
    · rfl
    · exact isDigit_not_ws (natStr_digits _ c hc)
  · exact isDigit_not_ws (natStr_digits _ c hc)

theorem intStr_notMem {i : Int} {d : Char} (hd : d.isDigit = false) (hm : d ≠ '-') :
    d ∉ intStr i := by
  intro hmem
  unfold intStr at hmem
  split at hmem
  · rcases List.mem_cons.mp hmem with rfl | hmem
    · exact hm rfl
    · exact isDigit_ne (natStr_digits _ d hmem) hd rfl
  · exact isDigit_ne (natStr_digits _ d hmem) hd rfl

theorem pyStrip_intStr (i : Int) : pyStrip (intStr i) = intStr i :=
  pyStrip_eq_self_of_all (intStr_not_ws i)

theorem natStr_cons (n : Nat) : ∃ c cs, natStr n = c :: cs ∧ c.isDigit = true := by
  cases h : natStr n with
  | nil => exact absurd h (natStr_ne_nil n)
  | cons c cs =>
    refine ⟨c, cs, rfl, natStr_digits n c ?_⟩
    rw [h]
    exact List.mem_cons_self c cs

theorem pyInt_intStr (i : Int) : pyInt (intStr i) = some i := by
  unfold pyInt
  rw [pyStrip_intStr]
  by_cases hi : i < 0
  · rw [intStr, if_pos hi]
    simp only [pyIntCore]
    rw [if_pos trivial, decDigitsOpt_natStr]
    have he : -((i.natAbs : Nat) : Int) = i := by omega
    simp [he]
    rw [abs_of_neg hi]
    ring
  · rw [intStr, if_neg hi]
    obtain ⟨c, cs, hcs, hdig⟩ := natStr_cons i.toNat
    rw [hcs]
    simp only [pyIntCore]
    rw [if_neg (isDigit_ne hdig (by decide)), if_neg (isDigit_ne hdig (by decide)),
      ← hcs, decDigitsOpt_natStr]
    have he : ((i.toNat : Nat) : Int) = i := by omega
    simp [he]

/-! Lemmas about `splitOnChar` and `joinSep`. -/

theorem splitOnChar_ne_nil (c : Char) (l : Str) : splitOnChar c l ≠ [] := by
  induction l with
  | nil => simp [splitOnChar]
  | cons a as ih =>
    unfold splitOnChar
    by_cases h : a = c
    · rw [if_pos h]
      simp
    · rw [if_neg h]
      cases hs : splitOnChar c as with
      | nil => simp
      | cons p ps => simp

theorem splitOnChar_not_mem {c : Char} {l : Str} (h : c ∉ l) : splitOnChar c l = [l] := by
  induction l with
  | nil => rfl
  | cons a as ih =>
    have ha : ¬(a = c) := fun e => h (by rw [← e]; exact List.mem_cons_self a as)
    unfold splitOnChar
    rw [if_neg ha, ih (fun hc => h (List.mem_cons_of_mem a hc))]

theorem splitOnChar_sep (c : Char) (x rest : Str) (hx : c ∉ x) :
    splitOnChar c (x ++ c :: rest) = x :: splitOnChar c rest := by
  induction x with
  | nil =>
    simp [splitOnChar]
  | cons a as ih =>
    have ha : ¬(a = c) := fun e => hx (by rw [← e]; exact List.mem_cons_self a as)
    have ih2 := ih (fun hc => hx (List.mem_cons_of_mem a hc))
    rw [List.cons_append]
    simp [splitOnChar, if_neg ha, ih2]

theorem joinSep_ne_nil {c : Char} {x : Str} {xs : List Str} (hx : x ≠ []) :
    joinSep c (x :: xs) ≠ [] := by
  cases xs with
  | nil => simpa [joinSep] using hx
  | cons y ys => simp [joinSep]

theorem joinSep_split (c : Char) : ∀ ps : List Str, ps ≠ [] → (∀ p ∈ ps, c ∉ p) →
    splitOnChar c (joinSep c ps) = ps := by
  intro ps
  induction ps with
  | nil => intro h; exact absurd rfl h
  | cons x xs ih =>
    intro _ hmem
    cases xs with
    | nil =>
      simp only [joinSep]
      exact splitOnChar_not_mem (hmem x (List.mem_cons_self x []))
    | cons y ys =>
      simp only [joinSep]
      rw [splitOnChar_sep c x _ (hmem x (List.mem_cons_self x (y :: ys)))]
      rw [ih (by simp) (fun p hp => hmem p (List.mem_cons_of_mem x hp))]

theorem joinSep_append_last (c : Char) (q : Str) : ∀ ps : List Str, ps ≠ [] →
    joinSep c (ps ++ [q]) = joinSep c ps ++ c :: q := by
  intro ps
  induction ps with
  | nil => intro h; exact absurd rfl h
  | cons x xs ih =>
    intro _
    cases xs with
    | nil => simp [joinSep]
    | cons y ys =>
      rw [List.cons_append]
      have h1 : y :: ys ++ [q] = y :: (ys ++ [q]) := List.cons_append y ys [q]
      rw [h1]
      simp only [joinSep]
      rw [← h1, ih (by simp)]
      simp

theorem splitOnChar_pieces {c : Char} : ∀ (l : Str) (p : Str), p ∈ splitOnChar c l →
    ∀ x ∈ p, x ∈ l ∧ x ≠ c := by
  intro l
  induction l with
  | nil =>
    intro p hp x hx
    simp [splitOnChar] at hp
    subst hp
    simp at hx
  | cons a as ih =>
    intro p hp x hx
    unfold splitOnChar at hp
    by_cases ha : a = c
    · rw [if_pos ha] at hp
      rcases List.mem_cons.mp hp with rfl | hp
      · simp at hx
      · obtain ⟨hmem, hne⟩ := ih p hp x hx
        exact ⟨List.mem_cons_of_mem a hmem, hne⟩
    · rw [if_neg ha] at hp
      cases hs : splitOnChar c as with
      | nil => exact absurd hs (splitOnChar_ne_nil c as)
      | cons q qs =>
        rw [hs] at hp
        rcases List.mem_cons.mp hp with rfl | hp
        · rcases List.mem_cons.mp hx with rfl | hx
          · exact ⟨List.mem_cons_self _ _, ha⟩
          · obtain ⟨hmem, hne⟩ := ih q (by rw [hs]; exact List.mem_cons_self q qs) x hx
            exact ⟨List.mem_cons_of_mem a hmem, hne⟩
        · obtain ⟨hmem, hne⟩ := ih p (by rw [hs]; exact List.mem_cons_of_mem q hp) x hx
          exact ⟨List.mem_cons_of_mem a hmem, hne⟩

/-! Lemmas about the dict model. -/

theorem dictGet_set_self (d : Dict) (k v : Str) : dictGet (dictSet d k v) k = some v := by
  induction d with
  | nil => simp [dictSet, dictGet]
  | cons p rest ih =>
    obtain ⟨a, b⟩ := p
    unfold dictSet
    by_cases h : a = k
    · rw [if_pos h]
      simp [dictGet]
    · rw [if_neg h]
      unfold dictGet
      rw [if_neg h]
      exact ih

theorem dictGet_set_ne (d : Dict) (k v j : Str) (h : j ≠ k) :
    dictGet (dictSet d k v) j = dictGet d j := by
  induction d with
  | nil =>
    simp [dictSet, dictGet]
    intro e
    exact absurd e.symm h
  | cons p rest ih =>
    obtain ⟨a, b⟩ := p
    unfold dictSet
    by_cases ha : a = k
    · subst ha
      rw [if_pos rfl]
      unfold dictGet
      rw [if_neg (fun e => h e.symm), if_neg (fun e => h e.symm)]
    · rw [if_neg ha]
      unfold dictGet
      by_cases hj : a = j
      · rw [if_pos hj, if_pos hj]
      · rw [if_neg hj, if_neg hj]
        exact ih

theorem mem_dictSet {d : Dict} {k v : Str} {p : Str × Str} (h : p ∈ dictSet d k v) :
    p ∈ d ∨ p = (k, v) := by
  induction d with
  | nil =>
    simp [dictSet] at h
    exact Or.inr h
  | cons q rest ih =>
    obtain ⟨a, b⟩ := q
    unfold dictSet at h
    by_cases ha : a = k
    · rw [if_pos ha] at h
      rcases List.mem_cons.mp h with rfl | h
      · exact Or.inr rfl
      · exact Or.inl (List.mem_cons_of_mem _ h)
    · rw [if_neg ha] at h
      rcases List.mem_cons.mp h with rfl | h
      · exact Or.inl (List.mem_cons_self _ _)
      · rcases ih h with h | h
        · exact Or.inl (List.mem_cons_of_mem _ h)
        · exact Or.inr h

theorem mem_keys_dictSet {d : Dict} {k v j : Str} (h : j ∈ dictKeys (dictSet d k v)) :
    j ∈ dictKeys d ∨ j = k := by
  unfold dictKeys at *
  obtain ⟨p, hp, he⟩ := List.mem_map.mp h
  rcases mem_dictSet hp with hm | rfl
  · exact Or.inl (List.mem_map.mpr ⟨p, hm, he⟩)
  · exact Or.inr he.symm

theorem nodup_keys_dictSet {d : Dict} {k v : Str} (h : (dictKeys d).Nodup) :
    (dictKeys (dictSet d k v)).Nodup := by
  induction d with
  | nil => simp [dictSet, dictKeys]
  | cons p rest ih =>
    obtain ⟨a, b⟩ := p
    simp only [dictKeys, List.map_cons, List.nodup_cons] at h
    unfold dictSet
    by_cases ha : a = k
    · subst ha
      rw [if_pos rfl]
      simp only [dictKeys, List.map_cons, List.nodup_cons]
      exact h
    · rw [if_neg ha]
      simp only [dictKeys, List.map_cons, List.nodup_cons]
      constructor
      · intro hmem
        rcases mem_keys_dictSet hmem with hm | rfl
        · exact h.1 hm
        · exact ha rfl
      · exact ih h.2

theorem dictSet_fresh {d : Dict} {k : Str} (hk : k ∉ dictKeys d) (v : Str) :
    dictSet d k v = d ++ [(k, v)] := by
  induction d with
  | nil => rfl
  | cons p rest ih =>
    obtain ⟨a, b⟩ := p
    have ha : ¬(a = k) := by
      intro e
      apply hk
      simp [dictKeys, e]
    unfold dictSet
    rw [if_neg ha, ih (fun hm => hk (by simp [dictKeys] at hm ⊢; exact Or.inr hm))]
    simp

theorem foldl_dictSet (pairs : List (Str × Str)) : ∀ acc : Dict,
    (pairs.map Prod.fst).Nodup → (∀ p ∈ pairs, p.1 ∉ dictKeys acc) →
    pairs.foldl (fun cfg p => dictSet cfg p.1 p.2) acc = acc ++ pairs := by
  induction pairs with
  | nil =>
    intro acc _ _
    simp
  | cons q rest ih =>
    intro acc hnd hfresh
    simp only [List.map_cons, List.nodup_cons] at hnd
    simp only [List.foldl_cons]
    rw [dictSet_fresh (hfresh q (List.mem_cons_self q rest)) q.2]
    rw [ih (acc ++ [q]) hnd.2]
    · simp
    · intro p hp
      rw [dictKeys, List.map_append]
      intro hmem
      rcases List.mem_append.mp hmem with hm | hm
      · exact hfresh p (List.mem_cons_of_mem q hp) (by rw [dictKeys]; exact hm)
      · simp at hm
        exact hnd.1 (by rw [← hm]; exact List.mem_map.mpr ⟨p, hp, rfl⟩)

/-! Round-trip of `saveConfig` and `parseConfig`. -/

theorem dropWhile_eq_self_head {p : Char → Bool} {l : Str}
    (h : ∀ a as, l = a :: as → p a = false) : l.dropWhile p = l := by
  cases hc : l with
  | nil => rfl
  | cons a as => rw [List.dropWhile_cons, h a as hc, if_neg (by simp)]

theorem takeWhile_until (v : Str) : ∀ k : Str, '=' ∉ k →
    (k ++ '=' :: v).takeWhile (fun c => c != '=') = k := by
  intro k
  induction k with
  | nil =>
    intro _
    simp [List.takeWhile_cons]
  | cons a as ih =>
    intro h
    have ha : a ≠ '=' := fun e => h (by rw [← e]; exact List.mem_cons_self a as)
    rw [List.cons_append, List.takeWhile_cons, if_pos (by simp [ha]),
      ih (fun hc => h (List.mem_cons_of_mem a hc))]

theorem dropWhile_until (v : Str) : ∀ k : Str, '=' ∉ k →
    (k ++ '=' :: v).dropWhile (fun c => c != '=') = '=' :: v := by
  intro k
  induction k with
  | nil =>
    intro _
    simp [List.dropWhile_cons]
  | cons a as ih =>
    intro h
    have ha : a ≠ '=' := fun e => h (by rw [← e]; exact List.mem_cons_self a as)
    rw [List.cons_append, List.dropWhile_cons, if_pos (by simp [ha]),
      ih (fun hc => h (List.mem_cons_of_mem a hc))]

theorem parseLine_good (cfg : Dict) (k v : Str) (hk : '=' ∉ k) :
    parseLine cfg (k ++ '=' :: v) = dictSet cfg (pyStrip k) (pyStrip v) := by
  unfold parseLine
  rw [if_pos (by simp), takeWhile_until v k hk, dropWhile_until v k hk]
  simp

theorem joinSep_head (c : Char) (x : Str) (xs : List Str) :
    ∃ t, joinSep c (x :: xs) = x ++ t := by
  cases xs with
  | nil => exact ⟨[], by simp [joinSep]⟩
  | cons y ys => exact ⟨c :: joinSep c (y :: ys), rfl⟩

/-- The serialized config neither starts with whitespace (keys are clean)
nor is affected by leading strip. -/
theorem saveConfig_dropWhile {d : Dict} (hk : ∀ p ∈ d, cleanKey p.1) :
    (saveConfig d).dropWhile isPyWs = saveConfig d := by
  apply dropWhile_eq_self_head
  intro a as he
  cases d with
  | nil => simp [saveConfig, joinSep] at he
  | cons p rest =>
    obtain ⟨kh, vh⟩ := p
    obtain ⟨t, ht⟩ := joinSep_head '\n' (kh ++ '=' :: vh)
      (rest.map (fun p => p.1 ++ '=' :: p.2))
    rw [saveConfig, List.map_cons, ht] at he
    cases hkh : kh with
    | nil =>
      rw [hkh] at he
      simp at he
      rw [← he.1]
      rfl
    | cons b bs =>
      have hedge := edgeOK_of_pyStrip (hk (kh, vh) (List.mem_cons_self _ _)).1
      rw [hkh] at he
      simp at he
      rw [← he.1]
      exact hedge.1 b bs hkh

/-- Trailing strip only rewrites the last line of a serialized config. -/
theorem trailStrip_joinSep_last (ls : List Str) (l : Str) (hl : trailStrip l ≠ []) :
    trailStrip (joinSep '\n' (ls ++ [l])) = joinSep '\n' (ls ++ [trailStrip l]) := by
  cases ls with
  | nil => simp [joinSep]
  | cons x xs =>
    rw [joinSep_append_last '\n' l (x :: xs) (by simp),
      joinSep_append_last '\n' (trailStrip l) (x :: xs) (by simp)]
    have he : joinSep '\n' (x :: xs) ++ '\n' :: l =
        (joinSep '\n' (x :: xs) ++ ['\n']) ++ l := by simp
    have he2 : joinSep '\n' (x :: xs) ++ '\n' :: trailStrip l =
        (joinSep '\n' (x :: xs) ++ ['\n']) ++ trailStrip l := by simp
    rw [he, he2, trailStrip_append_ne hl]

theorem foldl_parseLine_map (d : Dict) : ∀ acc : Dict, (∀ p ∈ d, '=' ∉ p.1) →
    (d.map (fun p => p.1 ++ '=' :: p.2)).foldl parseLine acc =
      d.foldl (fun cfg p => dictSet cfg (pyStrip p.1) (pyStrip p.2)) acc := by
  induction d with
  | nil =>
    intro acc _
    rfl
  | cons q rest ih =>
    intro acc hk
    simp only [List.map_cons, List.foldl_cons]
    rw [parseLine_good acc q.1 q.2 (hk q (List.mem_cons_self q rest))]
    exact ih _ (fun p hp => hk p (List.mem_cons_of_mem q hp))

theorem foldl_strip_dictSet (d : Dict) : ∀ acc : Dict,
    d.foldl (fun cfg p => dictSet cfg (pyStrip p.1) (pyStrip p.2)) acc =
      (d.map (fun p => (pyStrip p.1, pyStrip p.2))).foldl
        (fun cfg p => dictSet cfg p.1 p.2) acc := by
  induction d with
  | nil =>
    intro acc
    rfl
  | cons q rest ih =>
    intro acc
    simp only [List.map_cons, List.foldl_cons]
    exact ih _

/-- Serialization followed by a re-read returns the same mapping with every
value stripped (clean keys, no duplicate keys, single-line values). -/
theorem parse_save_gen {d : Dict} (hWF : DictWF d) :
    parseConfig (saveConfig d) = d.map (fun p => (p.1, pyStrip p.2)) := by
  obtain ⟨hcl, hnd⟩ := hWF
  by_cases hd : d = []
  · subst hd
    rfl
  · obtain ⟨init, plast, hsplit⟩ : ∃ init plast, d = init ++ [plast] :=
      ⟨d.dropLast, d.getLast hd, (List.dropLast_append_getLast hd).symm⟩
    obtain ⟨kl, vl⟩ := plast
    have hlastmem : (kl, vl) ∈ d := by
      rw [hsplit]
      simp
    have hklclean : cleanKey kl := (hcl _ hlastmem).1
    have hvl : '\n' ∉ vl := (hcl _ hlastmem).2
    have hts : trailStrip (kl ++ '=' :: vl) = kl ++ '=' :: trailStrip vl :=
      trailStrip_sep (by rfl)
    have htsne : trailStrip (kl ++ '=' :: vl) ≠ [] := by
      rw [hts]
      simp
    have hstrip : pyStrip (saveConfig d) =
        joinSep '\n'
          (init.map (fun p => p.1 ++ '=' :: p.2) ++ [kl ++ '=' :: trailStrip vl]) := by
      rw [pyStrip_eq_trail, saveConfig_dropWhile (fun p hp => (hcl p hp).1)]
      rw [hsplit, saveConfig, List.map_append, List.map_singleton]
      rw [trailStrip_joinSep_last _ _ htsne, hts]
    have hpieces : ∀ p ∈ init.map (fun p => p.1 ++ '=' :: p.2) ++
        [kl ++ '=' :: trailStrip vl], '\n' ∉ p := by
      intro p hp
      rcases List.mem_append.mp hp with hp | hp
      · obtain ⟨q, hq, rfl⟩ := List.mem_map.mp hp
        have hqd : q ∈ d := by
          rw [hsplit]
          exact List.mem_append_left _ hq
        intro hmem
        rcases List.mem_append.mp hmem with hm | hm
        · exact (hcl q hqd).1.2.1 hm
        · rcases List.mem_cons.mp hm with he | hm
          · exact absurd he (by decide)
          · exact (hcl q hqd).2 hm
      · rw [List.mem_singleton] at hp
        subst hp
        intro hmem
        rcases List.mem_append.mp hmem with hm | hm
        · exact hklclean.2.1 hm
        · rcases List.mem_cons.mp hm with he | hm
          · exact absurd he (by decide)
          · exact hvl ((trailStrip_sublist vl).subset hm)
    have hsplitOn := joinSep_split '\n'
      (init.map (fun p => p.1 ++ '=' :: p.2) ++ [kl ++ '=' :: trailStrip vl])
      (by simp) hpieces
    have hd2map : init.map (fun p => p.1 ++ '=' :: p.2) ++ [kl ++ '=' :: trailStrip vl] =
        (init ++ [(kl, trailStrip vl)]).map (fun p => p.1 ++ '=' :: p.2) := by
      rw [List.map_append, List.map_singleton]
    have hkeq : ∀ p ∈ init ++ [(kl, trailStrip vl)], '=' ∉ p.1 := by
      intro p hp
      rcases List.mem_append.mp hp with hp | hp
      · exact (hcl p (by rw [hsplit]; exact List.mem_append_left _ hp)).1.2.2
      · rw [List.mem_singleton] at hp
        subst hp
        exact hklclean.2.2
    have hcl2 : ∀ p ∈ init ++ [(kl, trailStrip vl)], pyStrip p.1 = p.1 := by
      intro p hp
      rcases List.mem_append.mp hp with hp | hp
      · exact (hcl p (by rw [hsplit]; exact List.mem_append_left _ hp)).1.1
      · rw [List.mem_singleton] at hp
        subst hp
        exact hklclean.1
    unfold parseConfig
    rw [hstrip, hsplitOn, hd2map, foldl_parseLine_map _ [] hkeq,
      foldl_strip_dictSet]
    have hmapkeys : (init ++ [(kl, trailStrip vl)]).map
          (fun p => (pyStrip p.1, pyStrip p.2)) =
        (init ++ [(kl, trailStrip vl)]).map (fun p => (p.1, pyStrip p.2)) :=
      List.map_congr_left (fun p hp => by rw [hcl2 p hp])
    rw [hmapkeys]
    have hnodup : (((init ++ [(kl, trailStrip vl)]).map
        (fun p => (p.1, pyStrip p.2))).map Prod.fst).Nodup := by
      rw [List.map_map]
      have he : (Prod.fst ∘ fun p : Str × Str => (p.1, pyStrip p.2)) = Prod.fst := by
        funext p
        rfl
      rw [he]
      have hkeys : (init ++ [(kl, trailStrip vl)]).map Prod.fst = dictKeys d := by
        rw [hsplit, dictKeys, List.map_append, List.map_append]
        rfl
      rw [hkeys]
      exact hnd
    have hfresh : ∀ p ∈ (init ++ [(kl, trailStrip vl)]).map
        (fun p => (p.1, pyStrip p.2)), p.1 ∉ dictKeys ([] : Dict) := by
      intro p _
      simp [dictKeys]
    rw [foldl_dictSet _ [] hnodup hfresh, List.nil_append]
    rw [hsplit, List.map_append, List.map_append, List.map_singleton,
      List.map_singleton]
    have hlast : ((kl : Str), pyStrip (trailStrip vl)) = (kl, pyStrip vl) := by
      rw [pyStrip_trailStrip]
    rw [hlast]

theorem dictGet_map_strip (d : Dict) (j : Str) :
    dictGet (d.map (fun p => (p.1, pyStrip p.2))) j = (dictGet d j).map pyStrip := by
  induction d with
  | nil => rfl
  | cons p rest ih =>
    obtain ⟨a, b⟩ := p
    simp only [List.map_cons]
    unfold dictGet
    by_cases h : a = j
    · rw [if_pos h, if_pos h]
      rfl
    · rw [if_neg h, if_neg h]
      exact ih

theorem parse_save_get {d : Dict} (hWF : DictWF d) (j : Str) :
    dictGet (parseConfig (saveConfig d)) j = (dictGet d j).map pyStrip := by
  rw [parse_save_gen hWF, dictGet_map_strip]

/-! Well-formedness of everything `_load_config` can return. -/

theorem DictWF_nil : DictWF [] := ⟨by simp, by simp [dictKeys]⟩

theorem parseLine_WF {cfg : Dict} {line : Str} (h : DictWF cfg) (hline : '\n' ∉ line) :
    DictWF (parseLine cfg line) := by
  unfold parseLine
  by_cases hc : line.contains '=' = true
  · rw [if_pos hc]
    constructor
    · intro p hp
      rcases mem_dictSet hp with hm | rfl
      · exact h.1 p hm
      · refine ⟨⟨pyStrip_idem _, ?_, ?_⟩, ?_⟩
        · intro hmem
          exact hline (((List.takeWhile_prefix _).sublist).subset (mem_pyStrip hmem))
        · intro hmem
          have hpred := List.mem_takeWhile_imp (mem_pyStrip hmem)
          simp at hpred
        · intro hmem
          have hsub : List.Sublist ((line.dropWhile (fun c => c != '=')).drop 1) line :=
            (List.drop_sublist _ _).trans (List.dropWhile_suffix _).sublist
          exact hline (hsub.subset (mem_pyStrip hmem))
    · exact nodup_keys_dictSet h.2
  · rw [if_neg hc]
    exact h

theorem foldl_parseLine_WF : ∀ (lines : List Str) (acc : Dict), DictWF acc →
    (∀ l ∈ lines, '\n' ∉ l) → DictWF (lines.foldl parseLine acc) := by
  intro lines
  induction lines with
  | nil =>
    intro acc h _
    exact h
  | cons l ls ih =>
    intro acc h hl
    simp only [List.foldl_cons]
    exact ih _ (parseLine_WF h (hl l (List.mem_cons_self l ls)))
      (fun q hq => hl q (List.mem_cons_of_mem l hq))

theorem parse_WF (content : Str) : DictWF (parseConfig content) := by
  unfold parseConfig
  apply foldl_parseLine_WF _ _ DictWF_nil
  intro l hl hmem
  exact (splitOnChar_pieces _ l hl '\n' hmem).2 rfl

theorem loadConfig_WF (fs : FileSys) : DictWF (loadConfig fs) := by
  unfold loadConfig
  cases fs.content with
  | none => exact DictWF_nil
  | some c =>
    show DictWF (if fs.readFails = true then [] else parseConfig c)
    by_cases h : fs.readFails = true
    · rw [if_pos h]
      exact DictWF_nil
    · rw [if_neg h]
      exact parse_WF c

theorem parseLine_VS {cfg : Dict} {line : Str} (h : DictVS cfg) :
    DictVS (parseLine cfg line) := by
  unfold parseLine
  by_cases hc : line.contains '=' = true
  · rw [if_pos hc]
    intro p hp
    rcases mem_dictSet hp with hm | rfl
    · exact h p hm
    · exact pyStrip_idem _
  · rw [if_neg hc]
    exact h

theorem foldl_parseLine_VS : ∀ (lines : List Str) (acc : Dict), DictVS acc →
    DictVS (lines.foldl parseLine acc) := by
  intro lines
  induction lines with
  | nil =>
    intro acc h
    exact h
  | cons l ls ih =>
    intro acc h
    simp only [List.foldl_cons]
    exact ih _ (parseLine_VS h)

theorem parse_VS (content : Str) : DictVS (parseConfig content) := by
  unfold parseConfig
  exact foldl_parseLine_VS _ _ (by intro p hp; simp at hp)

theorem loadConfig_VS (fs : FileSys) : DictVS (loadConfig fs) := by
  unfold loadConfig
  cases fs.content with
  | none =>
    intro p hp
    simp at hp
  | some c =>
    show DictVS (if fs.readFails = true then [] else parseConfig c)
    by_cases h : fs.readFails = true
    · rw [if_pos h]
      intro p hp
      simp at hp
    · rw [if_neg h]
      exact parse_VS c

theorem dictGet_VS {d : Dict} {j v : Str} (h : DictVS d) (hj : dictGet d j = some v) :
    pyStrip v = v := by
  induction d with
  | nil => cases hj
  | cons p rest ih =>
    obtain ⟨a, b⟩ := p
    unfold dictGet at hj
    by_cases ha : a = j
    · rw [if_pos ha] at hj
      cases hj
      exact h (a, v) (List.mem_cons_self _ _)
    · rw [if_neg ha] at hj
      exact ih (fun q hq => h q (List.mem_cons_of_mem _ hq)) hj

/-! Effect of one setter-style write on a subsequent read. -/

theorem loadConfig_readFails {fs : FileSys} (h : fs.readFails = true) :
    loadConfig fs = [] := by
  unfold loadConfig
  cases fs.content with
  | none => rfl
  | some c =>
    show (if fs.readFails = true then [] else parseConfig c) = []
    rw [if_pos h]

theorem load_after_write (fs : FileSys) (d : Dict) (hw : fs.writeFails = false)
    (hr : fs.readFails = false) :
    loadConfig (writeFile fs d) = parseConfig (saveConfig d) := by
  unfold writeFile
  rw [if_neg (by simp [hw])]
  simp [loadConfig, hr]

theorem dictWF_set {d : Dict} (key val : Str) (hWF : DictWF d) (hkey : cleanKey key)
    (hval : '\n' ∉ val) : DictWF (dictSet d key val) := by
  constructor
  · intro p hp
    rcases mem_dictSet hp with hm | rfl
    · exact hWF.1 p hm
    · exact ⟨hkey, hval⟩
  · exact nodup_keys_dictSet hWF.2

theorem setKey_get_self (fs : FileSys) (key val : Str) (hkey : cleanKey key)
    (hval : '\n' ∉ val) (hw : fs.writeFails = false) (hr : fs.readFails = false) :
    dictGet (loadConfig (writeFile fs (dictSet (loadConfig fs) key val))) key =
      some (pyStrip val) := by
  rw [load_after_write _ _ hw hr,
    parse_save_get (dictWF_set key val (loadConfig_WF fs) hkey hval) key,
    dictGet_set_self]
  rfl

theorem setKey_get_frame (fs : FileSys) (key val j : Str) (hkey : cleanKey key)
    (hval : '\n' ∉ val) (hw : fs.writeFails = false) (hr : fs.readFails = false)
    (hj : j ≠ key) :
    dictGet (loadConfig (writeFile fs (dictSet (loadConfig fs) key val))) j =
      dictGet (loadConfig fs) j := by
  rw [load_after_write _ _ hw hr,
    parse_save_get (dictWF_set key val (loadConfig_WF fs) hkey hval) j,
    dictGet_set_ne _ _ _ _ hj]
  cases hj2 : dictGet (loadConfig fs) j with
  | none => rfl
  | some v =>
    rw [Option.map_some', dictGet_VS (loadConfig_VS fs) hj2]

theorem dictGet_mem {d : Dict} {j v : Str} (h : dictGet d j = some v) : (j, v) ∈ d := by
  induction d with
  | nil => cases h
  | cons p rest ih =>
    obtain ⟨a, b⟩ := p
    unfold dictGet at h
    by_cases ha : a = j
    · rw [if_pos ha] at h
      cases h
      rw [← ha]
      exact List.mem_cons_self _ _
    · rw [if_neg ha] at h
      exact List.mem_cons_of_mem _ (ih h)

/-! Claim C8. -/

/-- C8: for every stored `last_cursor_position` string that is not a
comma-separated pair of integers, `get_last_cursor_position` returns
`(0, 0)`; for a well-formed pair of two integers it returns that pair.
("Integer" here is via `pyInt`, the model of Python `int()`.) -/
theorem C8_cursor_position_parse (fs : FileSys) :
    (∀ a b : Str, ∀ x y : Int,
      splitOnChar ',' (dictGetD (loadConfig fs) (str "last_cursor_position") (str "0,0")) =
        [a, b] →
      pyInt a = some x → pyInt b = some y →
      get_last_cursor_position fs = (x, y)) ∧
    ((¬ ∃ (a b : Str) (x y : Int),
      splitOnChar ',' (dictGetD (loadConfig fs) (str "last_cursor_position") (str "0,0")) =
        [a, b] ∧
      pyInt a = some x ∧ pyInt b = some y) →
      get_last_cursor_position fs = (0, 0)) := by
  constructor
  · intro a b x y hsp ha hb
    unfold get_last_cursor_position
    simp only [hsp, ha, hb]
  · intro hne
    unfold get_last_cursor_position
    cases hsp : splitOnChar ','
        (dictGetD (loadConfig fs) (str "last_cursor_position") (str "0,0")) with
    | nil => simp only [hsp]
    | cons a rest =>
      cases rest with
      | nil => simp only [hsp]
      | cons b rest2 =>
        cases rest2 with
        | nil =>
          cases hqa : pyInt a with
          | none => simp only [hsp, hqa]
          | some x =>
            cases hqb : pyInt b with
            | none => simp only [hsp, hqa, hqb]
            | some y => exact absurd ⟨a, b, x, y, hsp, hqa, hqb⟩ hne
        | cons c rest3 => simp only [hsp]

/-- C8 witness: a well-formed stored pair is returned as is, and "abc" yields (0,0). -/
theorem C8_cursor_position_parse_witness :
    get_last_cursor_position ⟨some (str "last_cursor_position=3,9"), false, false⟩ = (3, 9) ∧
    get_last_cursor_position ⟨some (str "last_cursor_position=abc"), false, false⟩ = (0, 0) := by
  constructor
  · exact (C8_cursor_position_parse _).1 (str "3") (str "9") 3 9 (by decide) (by decide)
      (by decide)
  · apply (C8_cursor_position_parse _).2
    rintro ⟨a, b, x, y, hsp, _, _⟩
    have hc : splitOnChar ','
        (dictGetD (loadConfig ⟨some (str "last_cursor_position=abc"), false, false⟩)
          (str "last_cursor_position") (str "0,0")) = [str "abc"] := by decide
    rw [hc] at hsp
    simp at hsp

/-! Claim C7: the original claim is refuted by the `int(...)`-converting
getters, which propagate `ValueError` on a stored non-integer string; the
rest of the failure policy holds as specified. -/

/-- C7 counterexample: with file content `editor_width=abc` (read and write
succeed), `get_editor_width` evaluates `int("abc")`, which raises
`ValueError` (modelled by `none`): a getter can raise even though the read
succeeded. -/
theorem C7_counterexample_int_getter :
    get_editor_width ⟨some (str "editor_width=abc"), false, false⟩ = none := by decide

/-- C7 amended: any read failure or missing file yields the empty mapping,
on which every getter returns its typed default; an int-converting getter
returns the parse of the stored string when one is present (so it raises
exactly when that string is not an integer); and no setter mutates
anything or raises on a write failure. -/
theorem C7_amended_failure_policy (fs : FileSys) :
    (fs.readFails = true ∨ fs.content = none → loadConfig fs = []) ∧
    (loadConfig fs = [] →
      get_theme fs = str "helowrite-dark" ∧
      get_editor_width fs = some 70 ∧
      get_bottom_padding fs = some 0 ∧
      get_distraction_top_padding fs = some 2 ∧
      get_distraction_free fs = false ∧
      get_show_word_count_distraction_free fs = true ∧
      get_cursor_color fs = str "theme" ∧
      get_open_last_file fs = false ∧
      get_last_file_path fs = [] ∧
      get_last_cursor_position fs = (0, 0) ∧
      get_recent_files fs = [] ∧
      get_obsidian_vault_path fs = [] ∧
      get_auto_save_enabled fs = false ∧
      get_auto_save_interval fs = some 5 ∧
      get_scrollbar_enabled fs = false) ∧
    (∀ s, dictGet (loadConfig fs) (str "editor_width") = some s →
      get_editor_width fs = pyInt s) ∧
    (∀ v : Str, fs.writeFails = true →
      set_theme fs v = fs ∧ set_cursor_color fs v = fs ∧
      set_last_file_path fs v = fs ∧ add_recent_file fs v = fs) ∧
    (∀ w : Int, fs.writeFails = true →
      set_editor_width fs w = fs ∧ set_bottom_padding fs w = fs ∧
      set_distraction_top_padding fs w = fs ∧ set_auto_save_interval fs w = fs) ∧
    (∀ b : Bool, fs.writeFails = true →
      set_distraction_free fs b = fs ∧ set_show_word_count_distraction_free fs b = fs ∧
      set_open_last_file fs b = fs ∧ set_auto_save_enabled fs b = fs ∧
      set_scrollbar_enabled fs b = fs) ∧
    (∀ p : Int × Int, fs.writeFails = true → set_last_cursor_position fs p = fs) := by
  refine ⟨?_, ?_, ?_, ?_, ?_, ?_, ?_⟩
  · intro h
    rcases h with h | h
    · exact loadConfig_readFails h
    · unfold loadConfig
      rw [h]
  · intro h
    unfold get_theme get_editor_width get_bottom_padding get_distraction_top_padding
      get_distraction_free get_show_word_count_distraction_free get_cursor_color
      get_open_last_file get_last_file_path get_last_cursor_position
      get_recent_files get_obsidian_vault_path get_auto_save_enabled
      get_auto_save_interval get_scrollbar_enabled
    rw [h]
    refine ⟨rfl, rfl, rfl, rfl, rfl, rfl, rfl, rfl, rfl, by decide, rfl, rfl, rfl,
      rfl, rfl⟩
  · intro s hs
    unfold get_editor_width
    rw [hs]
  · intro v hw
    unfold set_theme set_cursor_color set_last_file_path add_recent_file writeFile
    rw [if_pos hw, if_pos hw, if_pos hw, if_pos hw]
    exact ⟨rfl, rfl, rfl, rfl⟩
  · intro w hw
    unfold set_editor_width set_bottom_padding set_distraction_top_padding
      set_auto_save_interval writeFile
    rw [if_pos hw, if_pos hw, if_pos hw, if_pos hw]
    exact ⟨rfl, rfl, rfl, rfl⟩
  · intro b hw
    unfold set_distraction_free set_show_word_count_distraction_free
      set_open_last_file set_auto_save_enabled set_scrollbar_enabled writeFile
    rw [if_pos hw, if_pos hw, if_pos hw, if_pos hw, if_pos hw]
    exact ⟨rfl, rfl, rfl, rfl, rfl⟩
  · intro p hw
    unfold set_last_cursor_position writeFile
    rw [if_pos hw]

/-- C7 witness: a missing file gives the theme default; a failing write
leaves the file untouched. -/
theorem C7_amended_failure_policy_witness :
    get_theme ⟨none, false, false⟩ = str "helowrite-dark" ∧
    set_theme ⟨some (str "a=1"), false, true⟩ (str "x") =
      ⟨some (str "a=1"), false, true⟩ := by
  constructor
  · exact ((C7_amended_failure_policy ⟨none, false, false⟩).2.1 rfl).1
  · exact ((C7_amended_failure_policy ⟨some (str "a=1"), false, true⟩).2.2.2.1
      (str "x") rfl).1

/-! Claim C9: the frame property of single setters. The original claim is
refuted by a value containing a newline followed by a `key=value` pair: on
rewrite that line re-parses as an assignment to the other key. With
newline-free values every other key keeps its value. -/

/-- C9 counterexample: `set_theme` with value "x\na=2" on a file holding
`a=1` clobbers the unrelated key `a` (its value becomes "2"). -/
theorem C9_counterexample_newline_value :
    dictGet (loadConfig (set_theme ⟨some (str "a=1"), false, false⟩ (str "x\na=2")))
        (str "a") = some (str "2") ∧
    dictGet (loadConfig ⟨some (str "a=1"), false, false⟩) (str "a") =
      some (str "1") := by
  constructor
  · decide
  · decide

/-- C9 amended: every setter reads the whole mapping, mutates only its own
key and rewrites the whole file, so — provided the written value contains
no newline (automatic for the integer, boolean and cursor-pair setters) —
every other key present in the file keeps its value, unknown keys
included. -/
theorem C9_amended_setter_frame (fs : FileSys) (j : Str)
    (hw : fs.writeFails = false) (hr : fs.readFails = false) :
    (∀ v : Str, '\n' ∉ v → j ≠ str "theme" →
      dictGet (loadConfig (set_theme fs v)) j = dictGet (loadConfig fs) j) ∧
    (∀ w : Int, j ≠ str "editor_width" →
      dictGet (loadConfig (set_editor_width fs w)) j = dictGet (loadConfig fs) j) ∧
    (∀ w : Int, j ≠ str "bottom_padding" →
      dictGet (loadConfig (set_bottom_padding fs w)) j = dictGet (loadConfig fs) j) ∧
    (∀ w : Int, j ≠ str "distraction_top_padding" →
      dictGet (loadConfig (set_distraction_top_padding fs w)) j =
        dictGet (loadConfig fs) j) ∧
    (∀ b : Bool, j ≠ str "distraction_free" →
      dictGet (loadConfig (set_distraction_free fs b)) j = dictGet (loadConfig fs) j) ∧
    (∀ b : Bool, j ≠ str "show_word_count_distraction_free" →
      dictGet (loadConfig (set_show_word_count_distraction_free fs b)) j =
        dictGet (loadConfig fs) j) ∧
    (∀ v : Str, '\n' ∉ v → j ≠ str "cursor_color" →
      dictGet (loadConfig (set_cursor_color fs v)) j = dictGet (loadConfig fs) j) ∧
    (∀ b : Bool, j ≠ str "open_last_file" →
      dictGet (loadConfig (set_open_last_file fs b)) j = dictGet (loadConfig fs) j) ∧
    (∀ v : Str, '\n' ∉ v → j ≠ str "last_file_path" →
      dictGet (loadConfig (set_last_file_path fs v)) j = dictGet (loadConfig fs) j) ∧
    (∀ p : Int × Int, j ≠ str "last_cursor_position" →
      dictGet (loadConfig (set_last_cursor_position fs p)) j =
        dictGet (loadConfig fs) j) ∧
    (∀ b : Bool, j ≠ str "auto_save_enabled" →
      dictGet (loadConfig (set_auto_save_enabled fs b)) j = dictGet (loadConfig fs) j) ∧
    (∀ w : Int, j ≠ str "auto_save_interval" →
      dictGet (loadConfig (set_auto_save_interval fs w)) j = dictGet (loadConfig fs) j) ∧
    (∀ b : Bool, j ≠ str "scrollbar_enabled" →
      dictGet (loadConfig (set_scrollbar_enabled fs b)) j = dictGet (loadConfig fs) j) ∧
    (∀ (isDirOK : Str → Bool) (path : Str) (fs2 : FileSys),
      set_obsidian_vault_path isDirOK fs path = .ok fs2 → '\n' ∉ path →
      j ≠ str "obsidian_vault_path" →
      dictGet (loadConfig fs2) j = dictGet (loadConfig fs) j) := by
  have hint : ∀ w : Int, ('\n' : Char) ∉ intStr w :=
    fun w => intStr_notMem (by decide) (by decide)
  have hbool : ∀ b : Bool, ('\n' : Char) ∉ (if b then str "1" else str "0") := by
    intro b
    cases b <;> decide
  have hpair : ∀ p : Int × Int, ('\n' : Char) ∉ (intStr p.1 ++ ',' :: intStr p.2) := by
    intro p hmem
    rcases List.mem_append.mp hmem with hm | hm
    · exact hint p.1 hm
    · rcases List.mem_cons.mp hm with he | hm
      · exact absurd he (by decide)
      · exact hint p.2 hm
  refine ⟨?_, ?_, ?_, ?_, ?_, ?_, ?_, ?_, ?_, ?_, ?_, ?_, ?_, ?_⟩
  · intro v hv hj
    exact setKey_get_frame fs _ v j (by decide) hv hw hr hj
  · intro w hj
    exact setKey_get_frame fs _ (intStr w) j (by decide) (hint w) hw hr hj
  · intro w hj
    exact setKey_get_frame fs _ (intStr w) j (by decide) (hint w) hw hr hj
  · intro w hj
    exact setKey_get_frame fs _ (intStr w) j (by decide) (hint w) hw hr hj
  · intro b hj
    exact setKey_get_frame fs _ _ j (by decide) (hbool b) hw hr hj
  · intro b hj
    exact setKey_get_frame fs _ _ j (by decide) (hbool b) hw hr hj
  · intro v hv hj
    exact setKey_get_frame fs _ v j (by decide) hv hw hr hj
  · intro b hj
    exact setKey_get_frame fs _ _ j (by decide) (hbool b) hw hr hj
  · intro v hv hj
    exact setKey_get_frame fs _ v j (by decide) hv hw hr hj
  · intro p hj
    exact setKey_get_frame fs _ _ j (by decide) (hpair p) hw hr hj
  · intro b hj
    exact setKey_get_frame fs _ _ j (by decide) (hbool b) hw hr hj
  · intro w hj
    exact setKey_get_frame fs _ (intStr w) j (by decide) (hint w) hw hr hj
  · intro b hj
    exact setKey_get_frame fs _ _ j (by decide) (hbool b) hw hr hj
  · intro isDirOK path fs2 hok hv hj
    unfold set_obsidian_vault_path at hok
    by_cases hc : (path != [] && !isDirOK path) = true
    · rw [if_pos hc] at hok
      cases hok
    · rw [if_neg hc] at hok
      cases hok
      exact setKey_get_frame fs _ path j (by decide) hv hw hr hj

/-- C9 witness: setting the theme on a file holding an unknown key `a=1`
keeps `a=1` readable afterwards. -/
theorem C9_amended_setter_frame_witness :
    dictGet (loadConfig (set_theme ⟨some (str "a=1"), false, false⟩ (str "dark")))
      (str "a") = dictGet (loadConfig ⟨some (str "a=1"), false, false⟩) (str "a") :=
  (C9_amended_setter_frame ⟨some (str "a=1"), false, false⟩ (str "a") rfl rfl).1
    (str "dark") (by decide) (by decide)

/-! Claim C10: the Obsidian vault path setter. -/

/-- C10: `set_obsidian_vault_path` raises `ValueError` exactly when the
path is nonempty and not an existing directory — before any read or write,
returning no new file state, so the stored configuration is untouched (the
`.error` outcome does not depend on `fs` at all); otherwise it persists the
value (and a clean path is then read back verbatim). It is the only setter
whose result type admits an exception: every other setter is a total
function into `FileSys`. -/
theorem C10_vault_path_setter :
    (∀ (isDirOK : Str → Bool) (fs : FileSys) (path : Str),
      path ≠ [] → isDirOK path = false →
      set_obsidian_vault_path isDirOK fs path =
        .error (str "Vault path must be an existing directory")) ∧
    (∀ (isDirOK : Str → Bool) (fs : FileSys) (path : Str),
      path = [] ∨ isDirOK path = true →
      set_obsidian_vault_path isDirOK fs path =
        .ok (writeFile fs (dictSet (loadConfig fs) (str "obsidian_vault_path") path))) ∧
    (∀ (isDirOK : Str → Bool) (fs : FileSys) (path : Str) (fs2 : FileSys),
      set_obsidian_vault_path isDirOK fs path = .ok fs2 →
      pyStrip path = path → '\n' ∉ path →
      fs.writeFails = false → fs.readFails = false →
      get_obsidian_vault_path fs2 = path) := by
  refine ⟨?_, ?_, ?_⟩
  · intro isDirOK fs path hne hdir
    unfold set_obsidian_vault_path
    rw [if_pos]
    simp [hdir]
    intro h
    exact hne h
  · intro isDirOK fs path h
    unfold set_obsidian_vault_path
    rw [if_neg]
    rcases h with h | h
    · simp [h]
    · simp [h]
  · intro isDirOK fs path fs2 hok hclean hnl hw hr
    unfold set_obsidian_vault_path at hok
    by_cases hc : (path != [] && !isDirOK path) = true
    · rw [if_pos hc] at hok
      cases hok
    · rw [if_neg hc] at hok
      cases hok
      unfold get_obsidian_vault_path dictGetD
      rw [setKey_get_self fs _ path (by decide) hnl hw hr, hclean]
      rfl

/-- C10 witness: a non-directory nonempty path errors; the empty path is
persisted and read back. -/
theorem C10_vault_path_setter_witness :
    set_obsidian_vault_path (fun _ => false) ⟨some [], false, false⟩ (str "/x") =
      .error (str "Vault path must be an existing directory") ∧
    get_obsidian_vault_path
      (writeFile ⟨some [], false, false⟩
        (dictSet (loadConfig ⟨some [], false, false⟩) (str "obsidian_vault_path") [])) =
      [] := by
  constructor
  · exact C10_vault_path_setter.1 (fun _ => false) ⟨some [], false, false⟩ (str "/x")
      (by decide) rfl
  · exact C10_vault_path_setter.2.2 (fun _ => true) ⟨some [], false, false⟩ [] _
      (C10_vault_path_setter.2.1 (fun _ => true) ⟨some [], false, false⟩ [] (Or.inl rfl))
      (by decide) (by decide) rfl rfl

/-! Claim C5: setter/getter round-trip. The original claim quantifies over
every value of the key's type; for the string-typed keys it fails, because
values are stripped on re-read and a value containing a newline re-parses
as several lines. -/

/-- C5 counterexample: `set_theme " a"` reads back as "a" (stripping), and
`set_theme "x\ntheme=y"` reads back as "y" (the injected line wins): the
round-trip fails for these values of the key's (string) type even though
every read and write succeeds. -/
theorem C5_counterexample_string_values :
    get_theme (set_theme ⟨some [], false, false⟩ (str " a")) = str "a" ∧
    get_theme (set_theme ⟨some [], false, false⟩ (str " a")) ≠ str " a" ∧
    get_theme (set_theme ⟨some [], false, false⟩ (str "x\ntheme=y")) = str "y" ∧
    get_theme (set_theme ⟨some [], false, false⟩ (str "x\ntheme=y")) ≠
      str "x\ntheme=y" := by
  refine ⟨by decide, by decide, by decide, by decide⟩

/-- C5 amended: for every supported key, `set_X(v); get_X()` returns `v`
when reads and writes succeed — unconditionally for the integer, boolean
and cursor-pair keys, and for the string keys provided the value is
newline-free and unchanged by stripping. Getters are functions of the
stored file alone (the `Config` object holds no cache), so a freshly
constructed store reading the same file observes the same value. -/
theorem C5_amended_roundtrip (fs : FileSys) (hw : fs.writeFails = false)
    (hr : fs.readFails = false) :
    (∀ v : Str, pyStrip v = v → '\n' ∉ v → get_theme (set_theme fs v) = v) ∧
    (∀ w : Int, get_editor_width (set_editor_width fs w) = some w) ∧
    (∀ w : Int, get_bottom_padding (set_bottom_padding fs w) = some w) ∧
    (∀ w : Int, get_distraction_top_padding (set_distraction_top_padding fs w) =
      some w) ∧
    (∀ b : Bool, get_distraction_free (set_distraction_free fs b) = b) ∧
    (∀ b : Bool, get_show_word_count_distraction_free
      (set_show_word_count_distraction_free fs b) = b) ∧
    (∀ v : Str, pyStrip v = v → '\n' ∉ v → get_cursor_color (set_cursor_color fs v) = v) ∧
    (∀ b : Bool, get_open_last_file (set_open_last_file fs b) = b) ∧
    (∀ v : Str, pyStrip v = v → '\n' ∉ v →
      get_last_file_path (set_last_file_path fs v) = v) ∧
    (∀ p : Int × Int, get_last_cursor_position (set_last_cursor_position fs p) = p) ∧
    (∀ b : Bool, get_auto_save_enabled (set_auto_save_enabled fs b) = b) ∧
    (∀ w : Int, get_auto_save_interval (set_auto_save_interval fs w) = some w) ∧
    (∀ b : Bool, get_scrollbar_enabled (set_scrollbar_enabled fs b) = b) ∧
    (∀ (isDirOK : Str → Bool) (path : Str) (fs2 : FileSys),
      set_obsidian_vault_path isDirOK fs path = .ok fs2 → pyStrip path = path →
      '\n' ∉ path → get_obsidian_vault_path fs2 = path) := by
  have hint : ∀ w : Int, ('\n' : Char) ∉ intStr w :=
    fun w => intStr_notMem (by decide) (by decide)
  refine ⟨?_, ?_, ?_, ?_, ?_, ?_, ?_, ?_, ?_, ?_, ?_, ?_, ?_, ?_⟩
  · intro v hcl hnl
    unfold get_theme set_theme dictGetD
    rw [setKey_get_self fs _ v (by decide) hnl hw hr, hcl]
    rfl
  · intro w
    unfold get_editor_width set_editor_width
    rw [setKey_get_self fs _ (intStr w) (by decide) (hint w) hw hr, pyStrip_intStr]
    exact pyInt_intStr w
  · intro w
    unfold get_bottom_padding set_bottom_padding
    rw [setKey_get_self fs _ (intStr w) (by decide) (hint w) hw hr, pyStrip_intStr]
    exact pyInt_intStr w
  · intro w
    unfold get_distraction_top_padding set_distraction_top_padding
    rw [setKey_get_self fs _ (intStr w) (by decide) (hint w) hw hr, pyStrip_intStr]
    exact pyInt_intStr w
  · intro b
    cases b
    · unfold get_distraction_free set_distraction_free dictGetD
      rw [if_neg (by decide), setKey_get_self fs _ (str "0") (by decide) (by decide) hw hr]
      decide
    · unfold get_distraction_free set_distraction_free dictGetD
      rw [if_pos rfl, setKey_get_self fs _ (str "1") (by decide) (by decide) hw hr]
      decide
  · intro b
    cases b
    · unfold get_show_word_count_distraction_free
        set_show_word_count_distraction_free dictGetD
      rw [if_neg (by decide), setKey_get_self fs _ (str "0") (by decide) (by decide) hw hr]
      decide
    · unfold get_show_word_count_distraction_free
        set_show_word_count_distraction_free dictGetD
      rw [if_pos rfl, setKey_get_self fs _ (str "1") (by decide) (by decide) hw hr]
      decide
  · intro v hcl hnl
    unfold get_cursor_color set_cursor_color dictGetD
    rw [setKey_get_self fs _ v (by decide) hnl hw hr, hcl]
    rfl
  · intro b
    cases b
    · unfold get_open_last_file set_open_last_file dictGetD
      rw [if_neg (by decide), setKey_get_self fs _ (str "0") (by decide) (by decide) hw hr]
      decide
    · unfold get_open_last_file set_open_last_file dictGetD
      rw [if_pos rfl, setKey_get_self fs _ (str "1") (by decide) (by decide) hw hr]
      decide
  · intro v hcl hnl
    unfold get_last_file_path set_last_file_path dictGetD
    rw [setKey_get_self fs _ v (by decide) hnl hw hr, hcl]
    rfl
  · intro p
    have hnl : ('\n' : Char) ∉ intStr p.1 ++ ',' :: intStr p.2 := by
      intro hmem
      rcases List.mem_append.mp hmem with hm | hm
      · exact hint p.1 hm
      · rcases List.mem_cons.mp hm with he | hm
        · exact absurd he (by decide)
        · exact hint p.2 hm
    have hws : ∀ c ∈ intStr p.1 ++ ',' :: intStr p.2, isPyWs c = false := by
      intro c hmem
      rcases List.mem_append.mp hmem with hm | hm
      · exact intStr_not_ws p.1 c hm
      · rcases List.mem_cons.mp hm with rfl | hm
        · rfl
        · exact intStr_not_ws p.2 c hm
    unfold get_last_cursor_position set_last_cursor_position dictGetD
    rw [setKey_get_self fs _ (intStr p.1 ++ ',' :: intStr p.2) (by decide) hnl hw hr,
      pyStrip_eq_self_of_all hws]
    simp only [Option.getD_some]
    rw [splitOnChar_sep ',' (intStr p.1) (intStr p.2)
        (intStr_notMem (by decide) (by decide)),
      splitOnChar_not_mem (intStr_notMem (by decide) (by decide))]
    simp only [pyInt_intStr]
  · intro b
    cases b
    · unfold get_auto_save_enabled set_auto_save_enabled dictGetD
      rw [if_neg (by decide), setKey_get_self fs _ (str "0") (by decide) (by decide) hw hr]
      decide
    · unfold get_auto_save_enabled set_auto_save_enabled dictGetD
      rw [if_pos rfl, setKey_get_self fs _ (str "1") (by decide) (by decide) hw hr]
      decide
  · intro w
    unfold get_auto_save_interval set_auto_save_interval
    rw [setKey_get_self fs _ (intStr w) (by decide) (hint w) hw hr, pyStrip_intStr]
    exact pyInt_intStr w
  · intro b
    cases b
    · unfold get_scrollbar_enabled set_scrollbar_enabled dictGetD
      rw [if_neg (by decide), setKey_get_self fs _ (str "0") (by decide) (by decide) hw hr]
      decide
    · unfold get_scrollbar_enabled set_scrollbar_enabled dictGetD
      rw [if_pos rfl, setKey_get_self fs _ (str "1") (by decide) (by decide) hw hr]
      decide
  · intro isDirOK path fs2 hok hcl hnl
    unfold set_obsidian_vault_path at hok
    by_cases hc : (path != [] && !isDirOK path) = true
    · rw [if_pos hc] at hok
      cases hok
    · rw [if_neg hc] at hok
      cases hok
      unfold get_obsidian_vault_path dictGetD
      rw [setKey_get_self fs _ path (by decide) hnl hw hr, hcl]
      rfl

/-- C5 witness: a concrete round-trip for a string key and an integer key. -/
theorem C5_amended_roundtrip_witness :
    get_theme (set_theme ⟨some [], false, false⟩ (str "textual-light")) =
      str "textual-light" ∧
    get_editor_width (set_editor_width ⟨some [], false, false⟩ 55) = some 55 := by
  constructor
  · exact (C5_amended_roundtrip ⟨some [], false, false⟩ rfl rfl).1
      (str "textual-light") (by decide) (by decide)
  · exact (C5_amended_roundtrip ⟨some [], false, false⟩ rfl rfl).2.1 55

/-! Claim C6: the recent-files invariant. Supporting lemmas first. -/

theorem removeFirst_sublist (l : List Str) (v : Str) :
    List.Sublist (removeFirst l v) l := by
  induction l with
  | nil => exact List.Sublist.refl _
  | cons x xs ih =>
    unfold removeFirst
    by_cases h : x = v
    · rw [if_pos h]
      exact List.sublist_cons_self x xs
    · rw [if_neg h]
      exact List.Sublist.cons₂ x ih

theorem removeFirst_length {l : List Str} {v : Str} (h : v ∈ l) :
    (removeFirst l v).length + 1 = l.length := by
  induction l with
  | nil => cases h
  | cons x xs ih =>
    unfold removeFirst
    by_cases hx : x = v
    · rw [if_pos hx]
      simp
    · rw [if_neg hx]
      have hv : v ∈ xs := by
        rcases List.mem_cons.mp h with he | hm
        · exact absurd he.symm hx
        · exact hm
      have := ih hv
      simp only [List.length_cons]
      omega

theorem not_mem_removeFirst {l : List Str} {v : Str} (h : l.Nodup) :
    v ∉ removeFirst l v := by
  induction l with
  | nil => simp [removeFirst]
  | cons x xs ih =>
    rw [List.nodup_cons] at h
    unfold removeFirst
    by_cases hx : x = v
    · rw [if_pos hx]
      rw [← hx]
      exact h.1
    · rw [if_neg hx]
      intro hmem
      rcases List.mem_cons.mp hmem with he | hm
      · exact hx he.symm
      · exact ih h.2 hm

theorem mem_joinSep {c x : Char} : ∀ {ps : List Str}, x ∈ joinSep c ps →
    x = c ∨ ∃ p ∈ ps, x ∈ p := by
  intro ps
  induction ps with
  | nil =>
    intro h
    simp [joinSep] at h
  | cons p qs ih =>
    intro h
    cases qs with
    | nil =>
      simp only [joinSep] at h
      exact Or.inr ⟨p, List.mem_cons_self _ _, h⟩
    | cons q rs =>
      simp only [joinSep] at h
      rcases List.mem_append.mp h with hm | hm
      · exact Or.inr ⟨p, List.mem_cons_self _ _, hm⟩
      · rcases List.mem_cons.mp hm with rfl | hm
        · exact Or.inl rfl
        · rcases ih hm with he | ⟨r, hr, hxr⟩
          · exact Or.inl he
          · exact Or.inr ⟨r, List.mem_cons_of_mem _ hr, hxr⟩

theorem edgeOK_joinSep (c : Char) : ∀ ps : List Str,
    (∀ p ∈ ps, edgeOK p ∧ p ≠ []) → edgeOK (joinSep c ps) := by
  intro ps
  induction ps with
  | nil =>
    intro _
    constructor
    · intro a as he
      simp [joinSep] at he
    · intro a as he
      simp [joinSep] at he
  | cons x xs ih =>
    intro h
    cases xs with
    | nil =>
      simpa only [joinSep] using (h x (List.mem_cons_self _ _)).1
    | cons y ys =>
      have hx := h x (List.mem_cons_self _ _)
      have hJ := ih (fun p hp => h p (List.mem_cons_of_mem x hp))
      have hJne : joinSep c (y :: ys) ≠ [] :=
        joinSep_ne_nil (h y (by simp)).2
      constructor
      · intro a as he
        rw [show joinSep c (x :: y :: ys) = x ++ c :: joinSep c (y :: ys) from rfl] at he
        cases hxc : x with
        | nil => exact absurd hxc hx.2
        | cons b bs =>
          rw [hxc] at he
          simp only [List.cons_append, List.cons.injEq] at he
          rw [← he.1]
          exact hx.1.1 b bs hxc
      · intro a as he
        rw [show joinSep c (x :: y :: ys) = x ++ c :: joinSep c (y :: ys) from rfl] at he
        rw [List.reverse_append, List.reverse_cons] at he
        cases hJr : (joinSep c (y :: ys)).reverse with
        | nil => exact absurd (List.reverse_eq_nil_iff.mp hJr) hJne
        | cons b bs =>
          rw [hJr] at he
          simp only [List.cons_append, List.append_assoc, List.cons.injEq] at he
          rw [← he.1]
          exact hJ.2 b bs hJr

theorem get_recent_entries (fs : FileSys) :
    ∀ e ∈ get_recent_files fs, e ≠ [] ∧ '|' ∉ e ∧ '\n' ∉ e := by
  intro e he
  simp only [get_recent_files] at he
  by_cases hc : (dictGetD (loadConfig fs) (str "recent_files") [] != []) = true
  · rw [if_pos hc] at he
    obtain ⟨hsp, hpred⟩ := List.mem_filter.mp he
    refine ⟨by simpa using hpred, ?_, ?_⟩
    · exact fun hmem => (splitOnChar_pieces _ e hsp '|' hmem).2 rfl
    · intro hmem
      have hin := (splitOnChar_pieces _ e hsp '\n' hmem).1
      unfold dictGetD at hin
      cases hv : dictGet (loadConfig fs) (str "recent_files") with
      | none =>
        rw [hv] at hin
        simp at hin
      | some v =>
        rw [hv] at hin
        simp only [Option.getD_some] at hin
        exact ((loadConfig_WF fs).1 _ (dictGet_mem hv)).2 hin
  · rw [if_neg hc] at he
    simp at he

/-- Writing a list of nonempty, separator-free, single-line, strip-clean
entries as `recent_files` reads back as exactly that list. -/
theorem recent_roundtrip_core (fs : FileSys) (l : List Str)
    (hw : fs.writeFails = false) (hr : fs.readFails = false)
    (hne : ∀ e ∈ l, e ≠ []) (hbar : ∀ e ∈ l, '|' ∉ e)
    (hnl : ∀ e ∈ l, '\n' ∉ e) (hst : ∀ e ∈ l, pyStrip e = e)
    (hl : l ≠ []) :
    get_recent_files (writeFile fs (dictSet (loadConfig fs) (str "recent_files")
      (joinSep '|' l))) = l := by
  have hvnl : '\n' ∉ joinSep '|' l := by
    intro hmem
    rcases mem_joinSep hmem with he | ⟨p, hp, hxp⟩
    · exact absurd he (by decide)
    · exact hnl p hp hxp
  have hvstrip : pyStrip (joinSep '|' l) = joinSep '|' l :=
    pyStrip_eq_self (edgeOK_joinSep '|' l
      (fun p hp => ⟨edgeOK_of_pyStrip (hst p hp), hne p hp⟩))
  have hvne : joinSep '|' l ≠ [] := by
    cases l with
    | nil => exact absurd rfl hl
    | cons x xs => exact joinSep_ne_nil (hne x (List.mem_cons_self _ _))
  simp only [get_recent_files, dictGetD]
  rw [setKey_get_self fs _ _ (by decide) hvnl hw hr, hvstrip]
  simp only [Option.getD_some]
  rw [if_pos (by simpa using hvne), joinSep_split '|' l hl hbar,
    List.filter_eq_self.mpr (fun e hme => by simpa using hne e hme)]

/-- The list stored by `add_recent_file` and read back: the path in front
of the deduplicated previous list, truncated to five. -/
theorem get_recent_after_add (fs : FileSys) (path : Str)
    (hw : fs.writeFails = false) (hr : fs.readFails = false)
    (hstrip : ∀ e ∈ get_recent_files fs, pyStrip e = e)
    (hpne : path ≠ []) (hpbar : '|' ∉ path) (hpnl : '\n' ∉ path)
    (hpstrip : pyStrip path = path) :
    get_recent_files (add_recent_file fs path) =
      (path :: (if path ∈ get_recent_files fs
        then removeFirst (get_recent_files fs) path
        else get_recent_files fs)).take 5 := by
  have hrec1 : ∀ e ∈ (if path ∈ get_recent_files fs
      then removeFirst (get_recent_files fs) path
      else get_recent_files fs), e ∈ get_recent_files fs := by
    intro e he
    by_cases hm : path ∈ get_recent_files fs
    · rw [if_pos hm] at he
      exact (removeFirst_sublist _ _).subset he
    · rw [if_neg hm] at he
      exact he
  have hmem2 : ∀ e ∈ (path :: (if path ∈ get_recent_files fs
      then removeFirst (get_recent_files fs) path
      else get_recent_files fs)).take 5, e = path ∨ e ∈ get_recent_files fs := by
    intro e he
    rcases List.mem_cons.mp (List.mem_of_mem_take he) with he2 | he2
    · exact Or.inl he2
    · exact Or.inr (hrec1 e he2)
  have hadd : add_recent_file fs path =
      writeFile fs (dictSet (loadConfig fs) (str "recent_files")
        (joinSep '|' ((path :: (if path ∈ get_recent_files fs
          then removeFirst (get_recent_files fs) path
          else get_recent_files fs)).take 5))) := by
    simp only [add_recent_file]
  rw [hadd]
  apply recent_roundtrip_core fs _ hw hr
  · intro e he
    rcases hmem2 e he with rfl | he2
    · exact hpne
    · exact (get_recent_entries fs e he2).1
  · intro e he
    rcases hmem2 e he with rfl | he2
    · exact hpbar
    · exact (get_recent_entries fs e he2).2.1
  · intro e he
    rcases hmem2 e he with rfl | he2
    · exact hpnl
    · exact (get_recent_entries fs e he2).2.2
  · intro e he
    rcases hmem2 e he with rfl | he2
    · exact hpstrip
    · exact hstrip e he2
  · rw [List.take_succ_cons]
    simp

/-- C6 counterexample: four runs refuting the claim as stated, on
hand-edited prior files or degenerate paths. (A) a prior list with a
duplicate: re-adding "a" leaves a duplicate and changes the length though
"a" was present; (B) the empty path is dropped on re-read, so it is not at
index 0; (C) a path containing the separator splits in two, so it is not
at index 0; (D) a prior middle entry with trailing whitespace merges with
its neighbour on rewrite, creating a duplicate. -/
theorem C6_counterexample_recent_files :
    (¬ (get_recent_files (add_recent_file
        ⟨some (str "recent_files=a|a|b|c|d|e"), false, false⟩ (str "a"))).Nodup) ∧
    ((str "a") ∈ get_recent_files ⟨some (str "recent_files=a|a|b|c|d|e"), false, false⟩ ∧
      (get_recent_files (add_recent_file
          ⟨some (str "recent_files=a|a|b|c|d|e"), false, false⟩ (str "a"))).length ≠
        (get_recent_files ⟨some (str "recent_files=a|a|b|c|d|e"), false, false⟩).length) ∧
    ((get_recent_files (add_recent_file
        ⟨some (str "recent_files=a|b"), false, false⟩ [])).head? ≠ some []) ∧
    ((get_recent_files (add_recent_file
        ⟨some [], false, false⟩ (str "x|y"))).head? ≠ some (str "x|y")) ∧
    ((str "a") ∈ get_recent_files ⟨some (str "recent_files=a|b|c|b |e"), false, false⟩ ∧
      ¬ (get_recent_files (add_recent_file
        ⟨some (str "recent_files=a|b|c|b |e"), false, false⟩ (str "z"))).Nodup) := by
  refine ⟨by decide, ⟨by decide, by decide⟩, by decide, by decide, by decide, by decide⟩

/-- C6 amended: provided the prior recent list is duplicate-free, of
length at most five and strip-clean entry-wise, and the added path is
nonempty, separator-free, single-line and strip-clean, `add_recent_file`
yields a list of length at most five with no duplicates and the path at
index 0, of unchanged length when the path was already present. -/
theorem C6_amended_recent_files (fs : FileSys) (path : Str)
    (hw : fs.writeFails = false) (hr : fs.readFails = false)
    (hnd : (get_recent_files fs).Nodup)
    (hlen : (get_recent_files fs).length ≤ 5)
    (hstrip : ∀ e ∈ get_recent_files fs, pyStrip e = e)
    (hpne : path ≠ []) (hpbar : '|' ∉ path) (hpnl : '\n' ∉ path)
    (hpstrip : pyStrip path = path) :
    (get_recent_files (add_recent_file fs path)).length ≤ 5 ∧
    (get_recent_files (add_recent_file fs path)).Nodup ∧
    (get_recent_files (add_recent_file fs path)).head? = some path ∧
    (path ∈ get_recent_files fs →
      (get_recent_files (add_recent_file fs path)).length =
        (get_recent_files fs).length) := by
  rw [get_recent_after_add fs path hw hr hstrip hpne hpbar hpnl hpstrip]
  refine ⟨?_, ?_, ?_, ?_⟩
  · rw [List.length_take]
    exact Nat.min_le_left _ _
  · apply List.Nodup.sublist (List.take_sublist _ _)
    rw [List.nodup_cons]
    by_cases hm : path ∈ get_recent_files fs
    · rw [if_pos hm]
      exact ⟨not_mem_removeFirst hnd, (removeFirst_sublist _ _).nodup hnd⟩
    · rw [if_neg hm]
      exact ⟨hm, hnd⟩
  · rw [List.take_succ_cons]
    rfl
  · intro hm
    rw [if_pos hm, List.length_take, List.length_cons]
    have := removeFirst_length hm
    omega

/-- C6 witness: adding a fresh path to a two-entry list. -/
theorem C6_amended_recent_files_witness :
    (get_recent_files (add_recent_file
      ⟨some (str "recent_files=a|b"), false, false⟩ (str "c"))).length ≤ 5 ∧
    (get_recent_files (add_recent_file
      ⟨some (str "recent_files=a|b"), false, false⟩ (str "c"))).head? =
        some (str "c") := by
  have h := C6_amended_recent_files ⟨some (str "recent_files=a|b"), false, false⟩
    (str "c") rfl rfl (by decide) (by decide) (by decide) (by decide) (by decide)
    (by decide) (by decide)
  exact ⟨h.1, h.2.2.1⟩

/-! Claim C4: reload after pull. -/

/-- C4: after a successful pull, if the re-read content differs from the
last-known-saved snapshot, the editor is reloaded with the cursor clamped
to `line' = max 0 (min line (lineCount - 1))` and
`col' = max 0 (min col (len lines[line']))` and the dirty flag cleared;
unchanged content (or a missing/unreadable file) leaves the state
untouched. -/
theorem C4_reload_clamps_cursor (st : EditorSt) (content : Str) :
    (content ≠ st.originalText →
      reload_file_content true (some content) st =
        (let lines := splitOnChar '\n' content
         let lineClamped := max 0 (min st.cursorLine ((lines.length : Int) - 1))
         let colClamped := max 0 (min st.cursorCol
           ((lines.getD lineClamped.toNat []).length : Int))
         { text := content, cursorLine := lineClamped, cursorCol := colClamped,
           originalText := content, isDirty := false })) ∧
    (content = st.originalText → reload_file_content true (some content) st = st) ∧
    (∀ onDisk : Option Str, reload_file_content false onDisk st = st) ∧
    (reload_file_content true none st = st) := by
  refine ⟨?_, ?_, ?_, ?_⟩
  · intro h
    unfold reload_file_content
    rw [if_neg (by simp)]
    show (if content = st.originalText then st else _) = _
    rw [if_neg h]
  · intro h
    unfold reload_file_content
    rw [if_neg (by simp)]
    show (if content = st.originalText then st else _) = _
    rw [if_pos h]
  · intro onDisk
    unfold reload_file_content
    rw [if_pos (by simp)]
  · unfold reload_file_content
    rw [if_neg (by simp)]

/-- C4 witness: the specification's example — cursor at (5, 3), file
shrinks to 4 lines, reload clamps to line 3 and column `min 3 (len l3)`. -/
theorem C4_reload_clamps_cursor_witness :
    reload_file_content true (some (str "l0\nl1\nl2\nl333"))
        ⟨str "a", 5, 3, str "a0", true⟩ =
      ⟨str "l0\nl1\nl2\nl333", 3, 3, str "l0\nl1\nl2\nl333", false⟩ :=
  ((C4_reload_clamps_cursor ⟨str "a", 5, 3, str "a0", true⟩
    (str "l0\nl1\nl2\nl333")).1 (by decide)).trans (by decide)

/-! Claim C3: "nothing to commit" is a terminal success of push. -/

/-- C3: when the commit stage fails with output containing "nothing to
commit", the push workflow reports "No changes to commit" and terminates:
the trace ends there, and `git push` is never among the commands run. -/
theorem C3_nothing_to_commit_skips_push (ex : Nat → ProcOut) (fileName : Str)
    (h0 : (ex 0).ok = true ∨ noLocalChanges (ex 0) = true)
    (h1 : (ex 1).ok = true ∨ noStashEntries (ex 1) = true)
    (h2 : (ex 2).ok = true)
    (h3 : (ex 3).ok = false) (h3n : nothingToCommit (ex 3) = true) :
    gitPush ex fileName =
      [Event.ran gitPushStashCmd, Event.ran stashPopCmd, Event.ran (addCmd fileName),
        Event.ran (commitCmd fileName),
        Event.feedback (str "No changes to commit") (str "information")] ∧
    (∀ cmd, Event.ran cmd ∈ gitPush ex fileName →
      cmd = gitPushStashCmd ∨ cmd = stashPopCmd ∨ cmd = addCmd fileName ∨
        cmd = commitCmd fileName) := by
  have hc0 : (!(ex 0).ok && !noLocalChanges (ex 0)) = false := by
    rcases h0 with h | h <;> simp [h]
  have hc1 : (!(ex 1).ok && !noStashEntries (ex 1)) = false := by
    rcases h1 with h | h <;> simp [h]
  have hc2 : (!(ex 2).ok) = false := by simp [h2]
  have hc3 : (!(ex 3).ok && nothingToCommit (ex 3)) = true := by simp [h3, h3n]
  have htrace : gitPush ex fileName =
      [Event.ran gitPushStashCmd, Event.ran stashPopCmd, Event.ran (addCmd fileName),
        Event.ran (commitCmd fileName),
        Event.feedback (str "No changes to commit") (str "information")] := by
    simp only [gitPush]
    rw [if_neg (by rw [hc0]; simp), if_neg (by rw [hc1]; simp),
      if_neg (by rw [hc2]; simp), if_pos hc3]
    rfl
  refine ⟨htrace, ?_⟩
  intro cmd hcmd
  rw [htrace] at hcmd
  simp only [List.mem_cons, List.not_mem_nil, or_false] at hcmd
  rcases hcmd with h | h | h | h | h
  · exact Or.inl (by injection h)
  · exact Or.inr (Or.inl (by injection h))
  · exact Or.inr (Or.inr (Or.inl (by injection h)))
  · exact Or.inr (Or.inr (Or.inr (by injection h)))
  · exact Event.noConfusion h

/-- C3 witness: a concrete run in which the commit reports nothing to
commit and the trace stops at the feedback. -/
theorem C3_nothing_to_commit_skips_push_witness :
    gitPush (fun i => if i = 3 then ⟨1, str "nothing to commit", []⟩ else ⟨0, [], []⟩)
        (str "f.md") =
      [Event.ran gitPushStashCmd, Event.ran stashPopCmd, Event.ran (addCmd (str "f.md")),
        Event.ran (commitCmd (str "f.md")),
        Event.feedback (str "No changes to commit") (str "information")] :=
  (C3_nothing_to_commit_skips_push
    (fun i => if i = 3 then ⟨1, str "nothing to commit", []⟩ else ⟨0, [], []⟩)
    (str "f.md") (Or.inl (by decide)) (Or.inl (by decide)) (by decide) (by decide)
    (by decide)).1

/-! Claim C1: stash-pop conflict triggers safe-abort in both workflows. -/

/-- C1: in both push and pull, a stash-pop failure whose stderr does not
contain "No stash entries found" makes the workflow report the conflict,
run `git rebase --abort` then `git merge --abort` (their results are
unconstrained here: either may fail, silently), and terminate: no add,
commit, push or reload ever happens after the conflict. -/
theorem C1_stash_pop_conflict_safe_abort (ex : Nat → ProcOut) (fileName : Str) :
    (((ex 0).ok = true ∨ noLocalChanges (ex 0) = true) →
      (ex 1).ok = false → noStashEntries (ex 1) = false →
      gitPush ex fileName =
        [Event.ran gitPushStashCmd, Event.ran stashPopCmd,
          Event.feedback pushConflictMsg (str "error"),
          Event.ran rebaseAbortCmd, Event.ran mergeAbortCmd] ∧
      (∀ cmd, Event.ran cmd ∈ gitPush ex fileName →
        cmd = gitPushStashCmd ∨ cmd = stashPopCmd ∨ cmd = rebaseAbortCmd ∨
          cmd = mergeAbortCmd) ∧
      Event.reload ∉ gitPush ex fileName) ∧
    (((ex 0).ok = true ∨ noLocalChanges (ex 0) = true) →
      ((ex 1).ok = true ∨ pullUpToDate (ex 1) = true) →
      (ex 2).ok = false → noStashEntries (ex 2) = false →
      gitPull ex fileName =
        [Event.ran gitPullStashCmd, Event.ran pullCmd, Event.ran stashPopCmd,
          Event.feedback pullConflictMsg (str "error"),
          Event.ran rebaseAbortCmd, Event.ran mergeAbortCmd] ∧
      (∀ cmd, Event.ran cmd ∈ gitPull ex fileName →
        cmd = gitPullStashCmd ∨ cmd = pullCmd ∨ cmd = stashPopCmd ∨
          cmd = rebaseAbortCmd ∨ cmd = mergeAbortCmd) ∧
      Event.reload ∉ gitPull ex fileName) := by
  constructor
  · intro h0 h1f h1n
    have hc0 : (!(ex 0).ok && !noLocalChanges (ex 0)) = false := by
      rcases h0 with h | h <;> simp [h]
    have hc1 : (!(ex 1).ok && !noStashEntries (ex 1)) = true := by simp [h1f, h1n]
    have htrace : gitPush ex fileName =
        [Event.ran gitPushStashCmd, Event.ran stashPopCmd,
          Event.feedback pushConflictMsg (str "error"),
          Event.ran rebaseAbortCmd, Event.ran mergeAbortCmd] := by
      simp only [gitPush]
      rw [if_neg (by rw [hc0]; simp), if_pos hc1]
      rfl
    refine ⟨htrace, ?_, ?_⟩
    · intro cmd hcmd
      rw [htrace] at hcmd
      simp only [List.mem_cons, List.not_mem_nil, or_false] at hcmd
      rcases hcmd with h | h | h | h | h
      · exact Or.inl (by injection h)
      · exact Or.inr (Or.inl (by injection h))
      · exact Event.noConfusion h
      · exact Or.inr (Or.inr (Or.inl (by injection h)))
      · exact Or.inr (Or.inr (Or.inr (by injection h)))
    · rw [htrace]
      simp
  · intro h0 h1 h2f h2n
    have hc0 : (!(ex 0).ok && !noLocalChanges (ex 0)) = false := by
      rcases h0 with h | h <;> simp [h]
    have hc1 : ((ex 1).ok || pullUpToDate (ex 1)) = true := by
      rcases h1 with h | h <;> simp [h]
    have hc2 : (!(ex 2).ok && !noStashEntries (ex 2)) = true := by simp [h2f, h2n]
    have htrace : gitPull ex fileName =
        [Event.ran gitPullStashCmd, Event.ran pullCmd, Event.ran stashPopCmd,
          Event.feedback pullConflictMsg (str "error"),
          Event.ran rebaseAbortCmd, Event.ran mergeAbortCmd] := by
      simp only [gitPull, pullPopPhase]
      rw [if_neg (by rw [hc0]; simp), if_pos hc1, if_pos hc2]
      rfl
    refine ⟨htrace, ?_, ?_⟩
    · intro cmd hcmd
      rw [htrace] at hcmd
      simp only [List.mem_cons, List.not_mem_nil, or_false] at hcmd
      rcases hcmd with h | h | h | h | h | h
      · exact Or.inl (by injection h)
      · exact Or.inr (Or.inl (by injection h))
      · exact Or.inr (Or.inr (Or.inl (by injection h)))
      · exact Event.noConfusion h
      · exact Or.inr (Or.inr (Or.inr (Or.inl (by injection h))))
      · exact Or.inr (Or.inr (Or.inr (Or.inr (by injection h))))
    · rw [htrace]
      simp

/-- C1 witness: concrete conflicting runs of push and pull in which the
rebase abort itself fails and is ignored. -/
theorem C1_stash_pop_conflict_safe_abort_witness :
    gitPush (fun i => if i = 1 then ⟨1, [], str "conflict"⟩ else
        if i = 2 then ⟨1, [], str "no rebase in progress"⟩ else ⟨0, [], []⟩)
      (str "f.md") =
      [Event.ran gitPushStashCmd, Event.ran stashPopCmd,
        Event.feedback pushConflictMsg (str "error"),
        Event.ran rebaseAbortCmd, Event.ran mergeAbortCmd] ∧
    gitPull (fun i => if i = 2 then ⟨1, [], str "conflict"⟩ else ⟨0, [], []⟩)
      (str "f.md") =
      [Event.ran gitPullStashCmd, Event.ran pullCmd, Event.ran stashPopCmd,
        Event.feedback pullConflictMsg (str "error"),
        Event.ran rebaseAbortCmd, Event.ran mergeAbortCmd] := by
  constructor
  · exact ((C1_stash_pop_conflict_safe_abort
      (fun i => if i = 1 then ⟨1, [], str "conflict"⟩ else
        if i = 2 then ⟨1, [], str "no rebase in progress"⟩ else ⟨0, [], []⟩)
      (str "f.md")).1 (Or.inl (by decide)) (by decide) (by decide)).1
  · exact ((C1_stash_pop_conflict_safe_abort
      (fun i => if i = 2 then ⟨1, [], str "conflict"⟩ else ⟨0, [], []⟩)
      (str "f.md")).2 (Or.inl (by decide)) (Or.inl (by decide)) (by decide)
      (by decide)).1

/-! Claim C2: upstream recovery in pull. The original claim says the
original error is re-raised both when `origin` is absent and when the
retry fails; in the code a bare `raise` inside the inner handler re-raises
whatever exception is in flight, which for a failed retry is the retry's
own `CalledProcessError`, so the retry's output — not the original pull
error — is what gets logged and classified. -/

/-- C2 counterexample: the pull fails with "There is no tracking
information", `origin` exists, the upstream is set, and the retried pull
fails with stderr "boom": the diagnostic log line carries "boom", and no
log line carrying the original error is ever written. -/
theorem C2_counterexample_retry_error_surfaced :
    gitPull (fun i =>
        if i = 0 then ⟨0, [], []⟩
        else if i = 1 then ⟨1, [], str "There is no tracking information"⟩
        else if i = 2 then ⟨0, str "main\n", []⟩
        else if i = 3 then ⟨0, str "origin\n", []⟩
        else if i = 4 then ⟨0, [], []⟩
        else ⟨1, [], str "boom"⟩) (str "f.md") =
      [Event.ran gitPullStashCmd, Event.ran pullCmd, Event.ran branchShowCmd,
        Event.ran remoteCmd, Event.ran (setUpstreamCmd (str "main")),
        Event.ran pullCmd,
        Event.logLine (str "Command 'git pull' failed: boom\n"),
        Event.feedback
          (str "Git pull failed - check git_sync_errors.log for details. You may need to resolve conflicts manually.")
          (str "error")] ∧
    Event.logLine
        (str "Command 'git pull' failed: There is no tracking information\n") ∉
      gitPull (fun i =>
        if i = 0 then ⟨0, [], []⟩
        else if i = 1 then ⟨1, [], str "There is no tracking information"⟩
        else if i = 2 then ⟨0, str "main\n", []⟩
        else if i = 3 then ⟨0, str "origin\n", []⟩
        else if i = 4 then ⟨0, [], []⟩
        else ⟨1, [], str "boom"⟩) (str "f.md") := by
  constructor
  · decide
  · decide

/-- C2 amended: on "no tracking information" the workflow reads the
current branch, lists the remotes and, if `origin` is among them, sets
`--set-upstream-to origin/<branch>` and retries the pull exactly once
(each other command runs once on these paths). If `origin` is absent the
original pull error is re-raised and its details are logged; if the retry
fails, the retry's error is the one logged (`current_cmd` stays
"git pull" in both cases). -/
theorem C2_amended_upstream_recovery (ex : Nat → ProcOut) (fileName : Str)
    (h0 : (ex 0).ok = true ∨ noLocalChanges (ex 0) = true)
    (h1f : (ex 1).ok = false) (h1u : pullUpToDate (ex 1) = false)
    (h1t : noTracking (ex 1) = true)
    (h2 : (ex 2).ok = true) (h3 : (ex 3).ok = true) :
    ((str "origin") ∈ splitOnChar '\n' (pyStrip ((ex 3).stdout)) →
      (ex 4).ok = true → (ex 5).ok = true → (ex 6).ok = true →
      gitPull ex fileName =
        [Event.ran gitPullStashCmd, Event.ran pullCmd, Event.ran branchShowCmd,
          Event.ran remoteCmd, Event.ran (setUpstreamCmd (pyStrip ((ex 2).stdout))),
          Event.ran pullCmd, Event.ran stashPopCmd, Event.reload,
          Event.feedback (str "Git pull completed for " ++ fileName)
            (str "information")]) ∧
    ((str "origin") ∉ splitOnChar '\n' (pyStrip ((ex 3).stdout)) →
      pyIn (str "up to date") (errorDetails (ex 1)) = false →
      gitPull ex fileName =
        [Event.ran gitPullStashCmd, Event.ran pullCmd, Event.ran branchShowCmd,
          Event.ran remoteCmd,
          Event.logLine (str "Command 'git pull' failed: " ++
            errorDetails (ex 1) ++ str "\n"),
          Event.feedback
            (str "Git pull failed - check git_sync_errors.log for details. You may need to resolve conflicts manually.")
            (str "error")]) ∧
    ((str "origin") ∈ splitOnChar '\n' (pyStrip ((ex 3).stdout)) →
      (ex 4).ok = true → (ex 5).ok = false →
      pyIn (str "up to date") (errorDetails (ex 5)) = false →
      gitPull ex fileName =
        [Event.ran gitPullStashCmd, Event.ran pullCmd, Event.ran branchShowCmd,
          Event.ran remoteCmd, Event.ran (setUpstreamCmd (pyStrip ((ex 2).stdout))),
          Event.ran pullCmd,
          Event.logLine (str "Command 'git pull' failed: " ++
            errorDetails (ex 5) ++ str "\n"),
          Event.feedback
            (str "Git pull failed - check git_sync_errors.log for details. You may need to resolve conflicts manually.")
            (str "error")]) := by
  have hc0 : (!(ex 0).ok && !noLocalChanges (ex 0)) = false := by
    rcases h0 with h | h <;> simp [h]
  have hc1 : ((ex 1).ok || pullUpToDate (ex 1)) = false := by simp [h1f, h1u]
  have hc2 : (!(ex 2).ok) = false := by simp [h2]
  have hc3 : (!(ex 3).ok) = false := by simp [h3]
  refine ⟨?_, ?_, ?_⟩
  · intro horigin h4 h5 h6
    have hc4 : (!(ex 4).ok) = false := by simp [h4]
    have hc5 : (!(ex 5).ok) = false := by simp [h5]
    have hc6 : (!(ex 6).ok && !noStashEntries (ex 6)) = false := by simp [h6]
    simp only [gitPull, pullPopPhase]
    rw [if_neg (by rw [hc0]; simp), if_neg (by rw [hc1]; simp), if_pos h1t,
      if_neg (by rw [hc2]; simp), if_neg (by rw [hc3]; simp), if_pos horigin,
      if_neg (by rw [hc4]; simp), if_neg (by rw [hc5]; simp),
      if_neg (by rw [hc6]; simp)]
    rfl
  · intro horigin hdet
    simp only [gitPull, pullFailEvents]
    rw [if_neg (by rw [hc0]; simp), if_neg (by rw [hc1]; simp), if_pos h1t,
      if_neg (by rw [hc2]; simp), if_neg (by rw [hc3]; simp), if_neg horigin,
      if_neg (by rw [hdet]; simp)]
    rfl
  · intro horigin h4 h5 hdet
    have hc4 : (!(ex 4).ok) = false := by simp [h4]
    have hc5 : (!(ex 5).ok) = true := by simp [h5]
    simp only [gitPull, pullFailEvents]
    rw [if_neg (by rw [hc0]; simp), if_neg (by rw [hc1]; simp), if_pos h1t,
      if_neg (by rw [hc2]; simp), if_neg (by rw [hc3]; simp), if_pos horigin,
      if_neg (by rw [hc4]; simp), if_pos hc5, if_neg (by rw [hdet]; simp)]
    rfl

/-- C2 witness: a concrete run in which the recovery succeeds and the pull
completes without surfacing an error. -/
theorem C2_amended_upstream_recovery_witness :
    gitPull (fun i =>
        if i = 1 then ⟨1, [], str "There is no tracking information"⟩
        else if i = 2 then ⟨0, str "main\n", []⟩
        else if i = 3 then ⟨0, str "origin\n", []⟩
        else ⟨0, [], []⟩) (str "f.md") =
      [Event.ran gitPullStashCmd, Event.ran pullCmd, Event.ran branchShowCmd,
        Event.ran remoteCmd, Event.ran (setUpstreamCmd (str "main")),
        Event.ran pullCmd, Event.ran stashPopCmd, Event.reload,
        Event.feedback (str "Git pull completed for " ++ str "f.md")
          (str "information")] :=
  (C2_amended_upstream_recovery (fun i =>
      if i = 1 then ⟨1, [], str "There is no tracking information"⟩
      else if i = 2 then ⟨0, str "main\n", []⟩
      else if i = 3 then ⟨0, str "origin\n", []⟩
      else ⟨0, [], []⟩) (str "f.md")
    (Or.inl (by decide)) (by decide) (by decide) (by decide) (by decide)
    (by decide)).1 (by decide) (by decide) (by decide) (by decide)

end HW
